import Mathlib

/-!
# Verification of the generational-index entity store (`src/Handles/p2.cpp`)

This file gives a shallow embedding of the slot-map ("handles") allocator of
`src/Handles/p2.cpp`: the `Atom`/`Mark` parallel arrays, `Handle` snapshots,
and the `Manager` operations `create`, `destroy`, `update` and `refresh`
(two-pointer in-place compaction), together with proofs of the specified
invariants and scenarios.

Modelling conventions:
* `std::aligned_storage` payload cells become `Option T` (`none` while the
  storage is not constructed / after `deinit`).
* machine index type `HIdx = std::size_t` becomes `Nat`; the control counter
  `HCtr = int` becomes `Int` (no counter ever comes close to overflow in the
  defined-behaviour executions considered here).
* the `goto`-based scan loops of `refresh` are written as structurally
  recursive functions over an explicit step budget that is always at least the
  number of loop iterations the C++ loop performs, so the Lean functions
  compute exactly the C++ loop results.
* C++ reads/writes through a vector index are total functions in C++; here
  out-of-range reads return a default element and out-of-range writes are
  no-ops.  All executions considered by the theorems stay in range.
-/

namespace Handles

/-- Index type of the source (`using HIdx = std::size_t`). -/
abbrev HIdx := Nat

/-- Control-counter type of the source (`using HCtr = int`). -/
abbrev HCtr := Int

/-- `Atom<T>`: aligned storage for one `T` (modelled as `Option T`), the index
of the connected `Mark`, and the liveness flag. -/
structure Atom (T : Type) where
  data : Option T
  markIdx : HIdx
  alive : Bool
deriving DecidableEq

/-- `Mark`: index of the controlled atom plus the control counter.  The C++
constructor leaves `ctr` formally uninitialized; per the source's own diagrams
("all control counters will be set to 0") it is modelled as starting at 0. -/
structure Mark where
  atomIdx : HIdx
  ctr : HCtr
deriving DecidableEq

/-- `Handle<T>` minus the manager pointer (the manager is passed explicitly
to the handle operations): the connected mark index and the control-counter
snapshot taken at creation time. -/
structure Handle where
  markIdx : HIdx
  ctr : HCtr
deriving DecidableEq

/-- The manager state: current size, next size, and the two parallel vectors. -/
structure Manager (T : Type) where
  size : Nat
  sizeNext : Nat
  atoms : List (Atom T)
  marks : List Mark
deriving DecidableEq

variable {T : Type}

/-- Default atom used for (never-exercised) out-of-range reads. -/
def defAtom : Atom T := ⟨none, 0, false⟩

/-- Default mark used for (never-exercised) out-of-range reads. -/
def defMark : Mark := ⟨0, 0⟩

/-- Read `atoms[i]` (total version of C++ vector indexing). -/
def atomAt (atoms : List (Atom T)) (i : Nat) : Atom T :=
  (atoms[i]?).getD defAtom

/-- Read `marks[j]` (total version of C++ vector indexing). -/
def markAt (marks : List Mark) (j : Nat) : Mark :=
  (marks[j]?).getD defMark

/-- The initially default-constructed manager `Manager<Entity> m;`. -/
def initManager : Manager T := ⟨0, 0, [], []⟩

/-- `Manager::growBy(mAmount)`: append `amount` fresh atoms and marks, the
`i`-th new atom connected to the `i`-th new mark (`atoms.emplace_back(i);
marks.emplace_back(i)`). -/
def growBy (m : Manager T) (amount : Nat) : Manager T :=
  let oldCap := m.atoms.length
  { m with
    atoms := m.atoms ++ (List.range' oldCap amount).map (fun i => ⟨none, i, false⟩),
    marks := m.marks ++ (List.range' oldCap amount).map (fun i => ⟨i, 0⟩) }

/-- The in-place part of `Manager::createAtom`: construct the payload in the
atom at position `sizeNext` (`atom.init(...)`), set it alive, point its mark
back at `sizeNext`, and advance `sizeNext`. -/
def insertAtom (m1 : Manager T) (x : T) : Manager T :=
  { m1 with
    atoms := m1.atoms.set m1.sizeNext
      { atomAt m1.atoms m1.sizeNext with data := some x, alive := true },
    marks := m1.marks.set (atomAt m1.atoms m1.sizeNext).markIdx
      { markAt m1.marks (atomAt m1.atoms m1.sizeNext).markIdx with
        atomIdx := m1.sizeNext },
    sizeNext := m1.sizeNext + 1 }

/-- The conditional growth step of `Manager::createAtom`:
`if(getCapacity() <= sizeNext) growBy(10);`. -/
def growIfNeeded (m : Manager T) : Manager T :=
  if m.atoms.length ≤ m.sizeNext then growBy m 10 else m

/-- `Manager::createAtom(args...)`: grow by 10 if capacity is exhausted, then
construct the atom in place at position `sizeNext`.  Returns the new manager
together with the created atom's position (the source returns a reference to
the atom). -/
def createAtom (m : Manager T) (x : T) : Manager T × Nat :=
  (insertAtom (growIfNeeded m) x, (growIfNeeded m).sizeNext)

/-- `Manager::createHandleFromAtom(mAtom)`: a handle snapshotting the atom's
mark index and that mark's current control counter. -/
def createHandleFromAtom (m : Manager T) (i : Nat) : Handle :=
  ⟨(atomAt m.atoms i).markIdx, (markAt m.marks (atomAt m.atoms i).markIdx).ctr⟩

/-- `Manager::create(args...)`: `createHandleFromAtom(createAtom(args...))`. -/
def create (m : Manager T) (x : T) : Manager T × Handle :=
  let r := createAtom m x
  (r.1, createHandleFromAtom r.1 r.2)

/-- `Manager::destroy(mMarkIdx)`:
`getAtomFromMark(marks[mMarkIdx]).setDead()`. -/
def destroy (m : Manager T) (mMarkIdx : HIdx) : Manager T :=
  let aIdx := (markAt m.marks mMarkIdx).atomIdx
  { m with atoms := m.atoms.set aIdx { atomAt m.atoms aIdx with alive := false } }

/-- `Handle::destroy()`: `manager->destroy(markIdx)`. -/
def Handle.destroyIn (h : Handle) (m : Manager T) : Manager T :=
  destroy m h.markIdx

/-- `Handle::isAlive()`: `manager->marks[markIdx].ctr == ctr`. -/
def Handle.isAlive (h : Handle) (m : Manager T) : Bool :=
  match m.marks[h.markIdx]? with
  | some mrk => mrk.ctr == h.ctr
  | none => false

/-- The payload's update behaviour applied to one atom.  `f` returns the new
payload value together with `false` when the payload requested its own death
via `Atom::getAtomFromData(this)->setDead()` (as `Entity::update` does when
health drops to zero).  On an atom whose storage is not constructed the C++
call `e.get().update()` is undefined behaviour; it is modelled as a no-op. -/
def updateAtom (f : T → T × Bool) (a : Atom T) : Atom T :=
  match a.data with
  | some t => { a with data := some (f t).1, alive := a.alive && (f t).2 }
  | none => a

/-- `Manager::update()`: `for(auto& e : atoms) e.get().update();` — note that
the source iterates the WHOLE atoms vector, not the active range. -/
def update (f : T → T × Bool) (m : Manager T) : Manager T :=
  { m with atoms := m.atoms.map (updateAtom f) }

/-- Modelled from the spec (section 4.3), for comparison with `update`:
"`update()`: iterates the active range `[0, size)` of Slots in contiguous
storage order and invokes the payload's update behavior on each." -/
def updateSpecActiveRange (f : T → T × Bool) (m : Manager T) : Manager T :=
  { m with
    atoms := (m.atoms.enum).map
      (fun p => if p.1 < m.size then updateAtom f p.2 else p.2) }

/-- `alive` state of `atoms[i]` for a signed scan index (the scan loops of
`refresh` use `int` iterators; they only ever read at non-negative indices). -/
def aliveAtI (atoms : List (Atom T)) (i : Int) : Bool :=
  (atomAt atoms i.toNat).alive

/-- The "left -> right" scan of `refresh`:
`for(; true; ++iD) { if(iD > iA) goto finishRefresh; if(!atoms[iD].alive)
break; }`.  Returns the final value of `iD`; structurally recursive on a step
budget that must be at least `(iA + 1 - iD).toNat` (the maximal number of
increments the C++ loop can perform) for the stub branch to be unreachable. -/
def scanDead (atoms : List (Atom T)) (iA : Int) : Nat → Int → Int
  | 0, iD => iD
  | fuel + 1, iD =>
    if iA < iD then iD
    else if aliveAtI atoms iD then scanDead atoms iA fuel (iD + 1)
    else iD

/-- The "right -> left" scan of `refresh`:
`for(; true; --iA) { if(iA <= iD) goto finishRefresh; if(atoms[iA].alive)
break; }`.  Returns the final value of `iA`; budget at least
`(iA - iD).toNat`. -/
def scanAlive (atoms : List (Atom T)) (iD : Int) : Nat → Int → Int
  | 0, iA => iA
  | fuel + 1, iA =>
    if iA ≤ iD then iA
    else if aliveAtI atoms iA then iA
    else scanAlive atoms iD fuel (iA - 1)

/-- `std::swap(atoms[iD], atoms[iA])` on the list of atoms. -/
def swapAtoms (atoms : List (Atom T)) (i j : Nat) : List (Atom T) :=
  (atoms.set i (atomAt atoms j)).set j (atomAt atoms i)

/-- The `do { ... } while(true)` compaction loop of `Manager::refresh`.
Each iteration: scan for a dead atom from the left (`iD`) and an alive atom
from the right (`iA`); if the pointers cross, finish with the current `iD`;
otherwise `std::swap(atoms[iD], atoms[iA]);
getMarkFromAtom(atoms[iD]).atomIdx = iD;` and continue with `iD + 1`,
`iA - 1`.  Structurally recursive on a step budget that must be at least
`(iA - iD).toNat` for the stub branch to be unreachable (each iteration
shrinks `iA - iD` by two); when the budget is exhausted the pointers have
crossed or will cross during the scans, and the result equals the scan
result, which is what the stub returns. -/
def refreshLoop :
    Nat → List (Atom T) → List Mark → Int → Int → List (Atom T) × List Mark × Int
  | 0, atoms, marks, iD, iA => (atoms, marks, scanDead atoms iA ((iA + 1 - iD).toNat) iD)
  | fuel + 1, atoms, marks, iD, iA =>
    let d := scanDead atoms iA ((iA + 1 - iD).toNat) iD
    if iA < d then (atoms, marks, d)
    else
      let a := scanAlive atoms d ((iA - d).toNat) iA
      if a ≤ d then (atoms, marks, d)
      else
        let atoms2 := swapAtoms atoms d.toNat a.toNat
        let mi := (atomAt atoms2 d.toNat).markIdx
        let marks2 := marks.set mi ⟨d.toNat, (markAt marks mi).ctr⟩
        refreshLoop fuel atoms2 marks2 (d + 1) (a - 1)

/-- The trailing cleanup loop of `Manager::refresh`:
`for(; iD < intSizeNext; ++iD) { atoms[iD].deinit();
++(getMarkFromAtom(atoms[iD]).ctr); }` — written by counting down the exact
number `intSizeNext - iD` of remaining iterations (structural recursion). -/
def cleanupCount :
    List (Atom T) → List Mark → Nat → Nat → List (Atom T) × List Mark
  | atoms, marks, _, 0 => (atoms, marks)
  | atoms, marks, i, c + 1 =>
    let a := atomAt atoms i
    let atoms' := atoms.set i { a with data := none }
    let marks' := marks.set a.markIdx
      { markAt marks a.markIdx with ctr := (markAt marks a.markIdx).ctr + 1 }
    cleanupCount atoms' marks' (i + 1) c

/-- `Manager::refresh()`: run the compaction loop from `iD = 0`,
`iA = intSizeNext - 1`, set `size = sizeNext = iD`, then deinit the trailing
dead atoms and bump their marks' control counters. -/
def refresh (m : Manager T) : Manager T :=
  let n : Int := (m.sizeNext : Int)
  let r := refreshLoop m.sizeNext m.atoms m.marks 0 (n - 1)
  let newSize := r.2.2.toNat
  let c := cleanupCount r.1 r.2.1 newSize (m.sizeNext - newSize)
  { size := newSize, sizeNext := newSize, atoms := c.1, marks := c.2 }

/-! ## Derived notions used by the verification -/

/-- Number of alive atoms among storage positions `[0, n)`. -/
def countAliveUpTo (atoms : List (Atom T)) : Nat → Nat
  | 0 => 0
  | k + 1 => countAliveUpTo atoms k + (if (atomAt atoms k).alive then 1 else 0)

/-- The dead-scan result of one `refresh` loop iteration. -/
def rlD (atoms : List (Atom T)) (iD iA : Int) : Int :=
  scanDead atoms iA ((iA + 1 - iD).toNat) iD

/-- The alive-scan result of one `refresh` loop iteration. -/
def rlA (atoms : List (Atom T)) (iD iA : Int) : Int :=
  scanAlive atoms (rlD atoms iD iA) ((iA - rlD atoms iD iA).toNat) iA

/-- The compaction-loop part of `refresh m`. -/
def rLoop (m : Manager T) : List (Atom T) × List Mark × Int :=
  refreshLoop m.sizeNext m.atoms m.marks 0 ((m.sizeNext : Int) - 1)

/-- The cleanup part of `refresh m`. -/
def rClean (m : Manager T) : List (Atom T) × List Mark :=
  cleanupCount (rLoop m).1 (rLoop m).2.1 (rLoop m).2.2.toNat
    (m.sizeNext - (rLoop m).2.2.toNat)

/-- Well-formedness invariant of a manager state: the parallel vectors have
equal length, the sizes are within capacity, all cross references are in
bounds, distinct atoms are connected to distinct marks, and for every slot in
`[0, sizeNext)` the atom/mark cross references form the documented bijection. -/
structure WF (m : Manager T) : Prop where
  lenEq : m.atoms.length = m.marks.length
  sizeLe : m.size ≤ m.sizeNext
  sizeNextLe : m.sizeNext ≤ m.atoms.length
  markIdxLt : ∀ k, k < m.atoms.length → (atomAt m.atoms k).markIdx < m.marks.length
  atomIdxLt : ∀ j, j < m.marks.length → (markAt m.marks j).atomIdx < m.atoms.length
  inj : ∀ k l, k < m.atoms.length → l < m.atoms.length →
    (atomAt m.atoms k).markIdx = (atomAt m.atoms l).markIdx → k = l
  bij : ∀ s, s < m.sizeNext →
    (markAt m.marks (atomAt m.atoms s).markIdx).atomIdx = s

/-- States reachable from the default-constructed manager through the public
operations (destroy may be requested with an arbitrary mark index, a superset
of the indices client handles can hold). -/
inductive Reach : Manager T → Prop where
  | init : Reach initManager
  | createStep (m : Manager T) (x : T) : Reach m → Reach (create m x).1
  | destroyStep (m : Manager T) (i : HIdx) : Reach m → Reach (destroy m i)
  | updateStep (m : Manager T) (f : T → T × Bool) : Reach m → Reach (update f m)
  | refreshStep (m : Manager T) : Reach m → Reach (refresh m)

/-- One public operation applied to a manager state. -/
inductive OpStep : Manager T → Manager T → Prop where
  | createStep (m : Manager T) (x : T) : OpStep m (create m x).1
  | destroyStep (m : Manager T) (i : HIdx) : OpStep m (destroy m i)
  | updateStep (m : Manager T) (f : T → T × Bool) : OpStep m (update f m)
  | refreshStep (m : Manager T) : OpStep m (refresh m)

/-- Any finite sequence of public operations. -/
def Steps : Manager T → Manager T → Prop :=
  Relation.ReflTransGen OpStep

/-! ## Concrete executions used as witnesses and counterexamples -/

/-- A payload-update behaviour on `Nat` payloads: increment, stay alive. -/
def succAlive : Nat → Nat × Bool := fun v => (v + 1, true)

/-- First create on an empty `Unit` store. -/
def mS1 : Manager Unit × Handle := create initManager ()

/-- Second create. -/
def mS2 : Manager Unit × Handle := create mS1.1 ()

/-- Third create. -/
def mS3 : Manager Unit × Handle := create mS2.1 ()

/-- C7 scenario: three creates, refresh. -/
def mC7a : Manager Unit := refresh mS3.1

/-- C7 scenario: then `h3.destroy()`. -/
def mC7b : Manager Unit := (mS3.2).destroyIn mC7a

/-- C7 scenario: then a second refresh. -/
def mC7c : Manager Unit := refresh mC7b

/-- C8 scenario: one create, destroy it, refresh. -/
def mC8a : Manager Unit := refresh ((mS1.2).destroyIn mS1.1)

/-- C8 scenario: then a second create (reusing slot 0). -/
def mC8b : Manager Unit × Handle := create mC8a ()

/-- C4 counterexample: after the C8 trace, `destroy()` through the stale
handle of the first entity. -/
def mC4 : Manager Unit := (mS1.2).destroyIn mC8b.1

/-- C2 counterexample: two creates, refresh, destroy the first entity,
refresh (the reclaiming refresh performs one compaction swap). -/
def mC2a : Manager Unit := refresh mS2.1

/-- C2 counterexample: destroy the first entity. -/
def mC2b : Manager Unit := (mS1.2).destroyIn mC2a

/-- C2 counterexample: the reclaiming refresh. -/
def mC2c : Manager Unit := refresh mC2b

/-- C3 failing input: a `Nat` store holding one freshly created entity
(size = 0, sizeNext = 1). -/
def mC3 : Manager Nat × Handle := create initManager 5

/-! ## Basic access lemmas -/

theorem atomAt_oob {atoms : List (Atom T)} {i : Nat} (h : atoms.length ≤ i) :
    atomAt atoms i = defAtom := by
  simp [atomAt, List.getElem?_eq_none h]

theorem markAt_oob {marks : List Mark} {j : Nat} (h : marks.length ≤ j) :
    markAt marks j = defMark := by
  simp [markAt, List.getElem?_eq_none h]

theorem atomAt_set_self {atoms : List (Atom T)} {i : Nat} {a : Atom T}
    (h : i < atoms.length) : atomAt (atoms.set i a) i = a := by
  simp [atomAt, List.getElem?_set_self h]

theorem atomAt_set_ne {atoms : List (Atom T)} {i j : Nat} {a : Atom T}
    (h : i ≠ j) : atomAt (atoms.set i a) j = atomAt atoms j := by
  simp [atomAt, List.getElem?_set_ne h]

theorem markAt_set_self {marks : List Mark} {j : Nat} {mrk : Mark}
    (h : j < marks.length) : markAt (marks.set j mrk) j = mrk := by
  simp [markAt, List.getElem?_set_self h]

theorem markAt_set_ne {marks : List Mark} {i j : Nat} {mrk : Mark}
    (h : i ≠ j) : markAt (marks.set i mrk) j = markAt marks j := by
  simp [markAt, List.getElem?_set_ne h]

theorem markAt_set_oob {marks : List Mark} {i j : Nat} {mrk : Mark}
    (h : marks.length ≤ i) : markAt (marks.set i mrk) j = markAt marks j := by
  rw [List.set_eq_of_length_le h]

theorem atomAt_append_left {l₁ l₂ : List (Atom T)} {i : Nat} (h : i < l₁.length) :
    atomAt (l₁ ++ l₂) i = atomAt l₁ i := by
  simp [atomAt, List.getElem?_append_left h]

theorem markAt_append_left {l₁ l₂ : List Mark} {j : Nat} (h : j < l₁.length) :
    markAt (l₁ ++ l₂) j = markAt l₁ j := by
  simp [markAt, List.getElem?_append_left h]

/-! ## Swap lemmas -/

@[simp] theorem swapAtoms_length (atoms : List (Atom T)) (i j : Nat) :
    (swapAtoms atoms i j).length = atoms.length := by
  simp [swapAtoms]

theorem atomAt_swap (atoms : List (Atom T)) (i j k : Nat)
    (hi : i < atoms.length) (hj : j < atoms.length) :
    atomAt (swapAtoms atoms i j) k =
      if k = j then atomAt atoms i
      else if k = i then atomAt atoms j
      else atomAt atoms k := by
  unfold swapAtoms
  by_cases hkj : k = j
  · rw [if_pos hkj]
    subst hkj
    exact atomAt_set_self (by simpa using hj)
  · rw [if_neg hkj, atomAt_set_ne (Ne.symm hkj)]
    by_cases hki : k = i
    · rw [if_pos hki]
      subst hki
      exact atomAt_set_self hi
    · rw [if_neg hki]
      exact atomAt_set_ne (Ne.symm hki)

/-! ## Counting alive atoms -/

theorem countAliveUpTo_congr {atoms atoms' : List (Atom T)} {n : Nat}
    (h : ∀ k, k < n → atomAt atoms k = atomAt atoms' k) :
    countAliveUpTo atoms n = countAliveUpTo atoms' n := by
  induction n with
  | zero => rfl
  | succ n ih =>
    simp only [countAliveUpTo]
    rw [ih (fun k hk => h k (Nat.lt_succ_of_lt hk)), h n (Nat.lt_succ_self n)]

theorem countAliveUpTo_set {atoms : List (Atom T)} {i : Nat} {a : Atom T} {n : Nat}
    (hin : i < n) (hil : i < atoms.length) :
    countAliveUpTo (atoms.set i a) n + (if (atomAt atoms i).alive then 1 else 0) =
      countAliveUpTo atoms n + (if a.alive then 1 else 0) := by
  induction n with
  | zero => omega
  | succ n ih =>
    by_cases hi : i = n
    · subst hi
      have hc : countAliveUpTo (atoms.set i a) i = countAliveUpTo atoms i :=
        countAliveUpTo_congr (fun k hk => atomAt_set_ne (by omega))
      simp only [countAliveUpTo, hc, atomAt_set_self hil]
      cases (atomAt atoms i).alive <;> cases a.alive <;> simp
    · have hlt : i < n := by omega
      simp only [countAliveUpTo, atomAt_set_ne hi]
      have h := ih hlt
      cases ha : (atomAt atoms i).alive <;> cases hb : a.alive <;>
        cases hn : (atomAt atoms n).alive <;> simp [ha, hb, hn] at h ⊢ <;> omega

theorem countAliveUpTo_swap {atoms : List (Atom T)} {i j n : Nat}
    (hi : i < atoms.length) (hj : j < atoms.length) (hin : i < n) (hjn : j < n) :
    countAliveUpTo (swapAtoms atoms i j) n = countAliveUpTo atoms n := by
  unfold swapAtoms
  by_cases hij : i = j
  · subst hij
    have h1 : countAliveUpTo (atoms.set i (atomAt atoms i)) n +
        (if (atomAt atoms i).alive then 1 else 0) =
        countAliveUpTo atoms n + (if (atomAt atoms i).alive then 1 else 0) :=
      countAliveUpTo_set hin hi
    have h2 : countAliveUpTo ((atoms.set i (atomAt atoms i)).set i
          (atomAt atoms i)) n +
        (if (atomAt (atoms.set i (atomAt atoms i)) i).alive then 1 else 0) =
        countAliveUpTo (atoms.set i (atomAt atoms i)) n +
        (if (atomAt atoms i).alive then 1 else 0) :=
      countAliveUpTo_set hin (by simpa using hi)
    rw [atomAt_set_self hi] at h2
    omega
  · have h1 : countAliveUpTo (atoms.set i (atomAt atoms j)) n +
        (if (atomAt atoms i).alive then 1 else 0) =
        countAliveUpTo atoms n + (if (atomAt atoms j).alive then 1 else 0) :=
      countAliveUpTo_set hin hi
    have h2 : countAliveUpTo ((atoms.set i (atomAt atoms j)).set j
          (atomAt atoms i)) n +
        (if (atomAt (atoms.set i (atomAt atoms j)) j).alive then 1 else 0) =
        countAliveUpTo (atoms.set i (atomAt atoms j)) n +
        (if (atomAt atoms i).alive then 1 else 0) :=
      countAliveUpTo_set hjn (by simpa using hj)
    rw [atomAt_set_ne hij] at h2
    cases ha : (atomAt atoms i).alive <;> cases hb : (atomAt atoms j).alive <;>
      simp [ha, hb] at h1 h2 <;> omega

theorem countAliveUpTo_all_alive {atoms : List (Atom T)} {n : Nat}
    (h : ∀ k, k < n → (atomAt atoms k).alive = true) :
    countAliveUpTo atoms n = n := by
  induction n with
  | zero => rfl
  | succ n ih =>
    simp only [countAliveUpTo, h n (Nat.lt_succ_self n), if_pos trivial]
    rw [ih (fun k hk => h k (Nat.lt_succ_of_lt hk))]

theorem countAliveUpTo_of_partitioned {atoms : List (Atom T)} {d n : Nat}
    (hpre : ∀ k, k < d → (atomAt atoms k).alive = true)
    (hpost : ∀ k, d ≤ k → k < n → (atomAt atoms k).alive = false)
    (hdn : d ≤ n) : countAliveUpTo atoms n = d := by
  induction n with
  | zero => simp only [countAliveUpTo]; omega
  | succ n ih =>
    by_cases hd : d = n + 1
    · subst hd
      exact countAliveUpTo_all_alive hpre
    · have hdn' : d ≤ n := by omega
      simp only [countAliveUpTo, hpost n hdn' (Nat.lt_succ_self n)]
      rw [ih (fun k hk hk' => hpost k hk (Nat.lt_succ_of_lt hk')) hdn']
      simp

/-! ## Scan-loop characterizations -/

theorem aliveAtI_natCast (atoms : List (Atom T)) (k : Nat) :
    aliveAtI atoms (k : Int) = (atomAt atoms k).alive := by
  simp [aliveAtI]

theorem scanDead_spec (atoms : List (Atom T)) (iA : Int) :
    ∀ (fuel : Nat) (iD : Int), (iA + 1 - iD).toNat ≤ fuel →
    iD ≤ scanDead atoms iA fuel iD ∧
    scanDead atoms iA fuel iD ≤ max iD (iA + 1) ∧
    (∀ k : Int, iD ≤ k → k < scanDead atoms iA fuel iD → aliveAtI atoms k = true) ∧
    (iA < scanDead atoms iA fuel iD ∨
      aliveAtI atoms (scanDead atoms iA fuel iD) = false) := by
  intro fuel
  induction fuel with
  | zero =>
    intro iD hf
    have hlt : iA < iD := by omega
    simp only [scanDead]
    exact ⟨le_refl _, le_max_left _ _, fun k hk hk' => by omega, Or.inl hlt⟩
  | succ fuel ih =>
    intro iD hf
    simp only [scanDead]
    by_cases hAd : iA < iD
    · simp only [if_pos hAd]
      exact ⟨le_refl _, le_max_left _ _, fun k hk hk' => by omega, Or.inl hAd⟩
    · simp only [if_neg hAd]
      by_cases hal : aliveAtI atoms iD = true
      · simp only [hal, if_pos trivial]
        obtain ⟨h1, h2, h3, h4⟩ := ih (iD + 1) (by omega)
        refine ⟨by omega, by omega, ?_, h4⟩
        intro k hk hk'
        by_cases hkD : k = iD
        · rwa [hkD]
        · exact h3 k (by omega) hk'
      · simp only [if_neg hal]
        refine ⟨le_refl _, le_max_left _ _, fun k hk hk' => by omega, Or.inr ?_⟩
        simpa using hal

theorem scanAlive_spec (atoms : List (Atom T)) (iD : Int) :
    ∀ (fuel : Nat) (iA : Int), (iA - iD).toNat ≤ fuel →
    scanAlive atoms iD fuel iA ≤ iA ∧
    min iD iA ≤ scanAlive atoms iD fuel iA ∧
    (∀ k : Int, scanAlive atoms iD fuel iA < k → k ≤ iA → aliveAtI atoms k = false) ∧
    (scanAlive atoms iD fuel iA ≤ iD ∨
      aliveAtI atoms (scanAlive atoms iD fuel iA) = true) := by
  intro fuel
  induction fuel with
  | zero =>
    intro iA hf
    have hle : iA ≤ iD := by omega
    simp only [scanAlive]
    exact ⟨le_refl _, min_le_right _ _, fun k hk hk' => by omega, Or.inl hle⟩
  | succ fuel ih =>
    intro iA hf
    simp only [scanAlive]
    by_cases hAd : iA ≤ iD
    · simp only [if_pos hAd]
      exact ⟨le_refl _, min_le_right _ _, fun k hk hk' => by omega, Or.inl hAd⟩
    · simp only [if_neg hAd]
      by_cases hal : aliveAtI atoms iA = true
      · rw [if_pos hal]
        exact ⟨le_refl _, min_le_right _ _, fun k hk hk' => by omega, Or.inr hal⟩
      · rw [if_neg hal]
        obtain ⟨h1, h2, h3, h4⟩ := ih (iA - 1) (by omega)
        refine ⟨by omega, ?_, ?_, h4⟩
        · have : min iD (iA - 1) ≤ scanAlive atoms iD fuel (iA - 1) := h2
          omega
        · intro k hk hk'
          by_cases hkA : k = iA
          · subst hkA
            simpa using hal
          · exact h3 k hk (by omega)

/-! ## Cleanup-loop characterizations -/

theorem atomAt_set_fields (atoms : List (Atom T)) (i k : Nat) (b : Atom T)
    (hm : b.markIdx = (atomAt atoms i).markIdx)
    (hal : b.alive = (atomAt atoms i).alive) :
    (atomAt (atoms.set i b) k).markIdx = (atomAt atoms k).markIdx ∧
    (atomAt (atoms.set i b) k).alive = (atomAt atoms k).alive ∧
    (k ≠ i → atomAt (atoms.set i b) k = atomAt atoms k) := by
  by_cases hk : k = i
  · subst hk
    by_cases hl : k < atoms.length
    · rw [atomAt_set_self hl]
      exact ⟨hm, hal, fun h => absurd rfl h⟩
    · rw [List.set_eq_of_length_le (by omega)]
      exact ⟨rfl, rfl, fun _ => rfl⟩
  · rw [atomAt_set_ne (Ne.symm hk)]
    exact ⟨rfl, rfl, fun _ => rfl⟩

theorem markAt_set_fields (marks : List Mark) (j l : Nat) (w : Mark)
    (hA : w.atomIdx = (markAt marks j).atomIdx) :
    (markAt (marks.set j w) l).atomIdx = (markAt marks l).atomIdx ∧
    (l ≠ j → markAt (marks.set j w) l = markAt marks l) := by
  by_cases hl : l = j
  · subst hl
    by_cases hj : l < marks.length
    · rw [markAt_set_self hj]
      exact ⟨hA, fun h => absurd rfl h⟩
    · rw [List.set_eq_of_length_le (by omega)]
      exact ⟨rfl, fun _ => rfl⟩
  · rw [markAt_set_ne (Ne.symm hl)]
    exact ⟨rfl, fun _ => rfl⟩

theorem cleanupCount_succ (atoms : List (Atom T)) (marks : List Mark) (i c : Nat) :
    cleanupCount atoms marks i (c + 1) =
      cleanupCount (atoms.set i { atomAt atoms i with data := none })
        (marks.set (atomAt atoms i).markIdx
          { markAt marks (atomAt atoms i).markIdx with
            ctr := (markAt marks (atomAt atoms i).markIdx).ctr + 1 })
        (i + 1) c := rfl

theorem cleanupCount_basic :
    ∀ (c : Nat) (atoms : List (Atom T)) (marks : List Mark) (i : Nat),
    (cleanupCount atoms marks i c).1.length = atoms.length ∧
    (cleanupCount atoms marks i c).2.length = marks.length ∧
    (∀ k, (atomAt (cleanupCount atoms marks i c).1 k).markIdx =
      (atomAt atoms k).markIdx) ∧
    (∀ k, (atomAt (cleanupCount atoms marks i c).1 k).alive =
      (atomAt atoms k).alive) ∧
    (∀ k, k < i ∨ i + c ≤ k → atomAt (cleanupCount atoms marks i c).1 k =
      atomAt atoms k) ∧
    (∀ j, (markAt (cleanupCount atoms marks i c).2 j).atomIdx =
      (markAt marks j).atomIdx) ∧
    (∀ j, (markAt marks j).ctr ≤ (markAt (cleanupCount atoms marks i c).2 j).ctr) := by
  intro c
  induction c with
  | zero =>
    intro atoms marks i
    exact ⟨rfl, rfl, fun k => rfl, fun k => rfl, fun k _ => rfl, fun j => rfl,
      fun j => le_refl _⟩
  | succ c ih =>
    intro atoms marks i
    rw [cleanupCount_succ]
    obtain ⟨l1, l2, l3, l4, l5, l6, l7⟩ := ih
      (atoms.set i { atomAt atoms i with data := none })
      (marks.set (atomAt atoms i).markIdx
        { markAt marks (atomAt atoms i).markIdx with
          ctr := (markAt marks (atomAt atoms i).markIdx).ctr + 1 })
      (i + 1)
    have hA := fun k => atomAt_set_fields atoms i k
      { atomAt atoms i with data := none } rfl rfl
    have hM := fun l => markAt_set_fields marks (atomAt atoms i).markIdx l
      { markAt marks (atomAt atoms i).markIdx with
        ctr := (markAt marks (atomAt atoms i).markIdx).ctr + 1 } rfl
    refine ⟨?_, ?_, ?_, ?_, ?_, ?_, ?_⟩
    · rw [l1, List.length_set]
    · rw [l2, List.length_set]
    · intro k
      rw [l3 k]
      exact (hA k).1
    · intro k
      rw [l4 k]
      exact (hA k).2.1
    · intro k hk
      rw [l5 k (by omega)]
      exact (hA k).2.2 (by omega)
    · intro j
      rw [l6 j]
      exact (hM j).1
    · intro j
      refine le_trans ?_ (l7 j)
      by_cases hj : j = (atomAt atoms i).markIdx
      · by_cases hjl : (atomAt atoms i).markIdx < marks.length
        · rw [hj, markAt_set_self hjl]
          exact Int.le_add_one (le_refl _)
        · rw [List.set_eq_of_length_le (Nat.le_of_not_lt hjl)]
      · rw [(hM j).2 hj]

theorem cleanupCount_exact :
    ∀ (c : Nat) (atoms : List (Atom T)) (marks : List Mark) (i : Nat),
    i + c ≤ atoms.length →
    (∀ k l, i ≤ k → k < i + c → i ≤ l → l < i + c →
      (atomAt atoms k).markIdx = (atomAt atoms l).markIdx → k = l) →
    (∀ k, i ≤ k → k < i + c → (atomAt atoms k).markIdx < marks.length) →
    (∀ k, i ≤ k → k < i + c →
      (atomAt (cleanupCount atoms marks i c).1 k).data = none) ∧
    (∀ j, (∃ k, i ≤ k ∧ k < i + c ∧ (atomAt atoms k).markIdx = j) →
      (markAt (cleanupCount atoms marks i c).2 j).ctr = (markAt marks j).ctr + 1) ∧
    (∀ j, (∀ k, i ≤ k → k < i + c → (atomAt atoms k).markIdx ≠ j) →
      (markAt (cleanupCount atoms marks i c).2 j).ctr = (markAt marks j).ctr) := by
  intro c
  induction c with
  | zero =>
    intro atoms marks i _ _ _
    refine ⟨fun k hk hk' => by omega, ?_, fun j _ => rfl⟩
    rintro j ⟨k, hk, hk', -⟩
    omega
  | succ c ih =>
    intro atoms marks i hlen hinj hbnd
    rw [cleanupCount_succ]
    have hil : i < atoms.length := by omega
    have hj0 : (atomAt atoms i).markIdx < marks.length :=
      hbnd i (le_refl i) (by omega)
    have hA := fun k => atomAt_set_fields atoms i k
      { atomAt atoms i with data := none } rfl rfl
    have hM := fun l => markAt_set_fields marks (atomAt atoms i).markIdx l
      { markAt marks (atomAt atoms i).markIdx with
        ctr := (markAt marks (atomAt atoms i).markIdx).ctr + 1 } rfl
    obtain ⟨d1, d2, d3⟩ := ih
      (atoms.set i { atomAt atoms i with data := none })
      (marks.set (atomAt atoms i).markIdx
        { markAt marks (atomAt atoms i).markIdx with
          ctr := (markAt marks (atomAt atoms i).markIdx).ctr + 1 })
      (i + 1)
      (by rw [List.length_set]; omega)
      (by
        intro k l hk hk' hl hl' he
        rw [(hA k).1, (hA l).1] at he
        exact hinj k l (by omega) (by omega) (by omega) (by omega) he)
      (by
        intro k hk hk'
        rw [(hA k).1, List.length_set]
        exact hbnd k (by omega) (by omega))
    obtain ⟨b1, b2, b3, b4, b5, b6, b7⟩ := cleanupCount_basic c
      (atoms.set i { atomAt atoms i with data := none })
      (marks.set (atomAt atoms i).markIdx
        { markAt marks (atomAt atoms i).markIdx with
          ctr := (markAt marks (atomAt atoms i).markIdx).ctr + 1 })
      (i + 1)
    refine ⟨?_, ?_, ?_⟩
    · intro k hk hk'
      by_cases hki : k = i
      · subst hki
        rw [b5 k (Or.inl (by omega)), atomAt_set_self hil]
      · exact d1 k (by omega) (by omega)
    · rintro j ⟨k, hk, hk', hkj⟩
      by_cases hki : k = i
      · have hj' : (atomAt atoms i).markIdx = j := by rw [← hki, hkj]
        have hnot : ∀ l, i + 1 ≤ l → l < i + 1 + c →
            (atomAt (atoms.set i { atomAt atoms i with data := none }) l).markIdx ≠
              j := by
          intro l hl hl' he
          rw [(hA l).1, ← hj'] at he
          have := hinj l i (by omega) (by omega) (le_refl i) (by omega) he
          omega
        rw [d3 _ hnot, ← hj', markAt_set_self hj0]
      · have hne : j ≠ (atomAt atoms i).markIdx := by
          intro he
          have := hinj k i hk (by omega) (le_refl i) (by omega)
            (by rw [hkj, he])
          omega
        rw [d2 j ⟨k, by omega, by omega, by rw [(hA k).1, hkj]⟩, (hM j).2 hne]
    · intro j hj
      have hnot : ∀ l, i + 1 ≤ l → l < i + 1 + c →
          (atomAt (atoms.set i { atomAt atoms i with data := none }) l).markIdx ≠ j := by
        intro l hl hl' he
        rw [(hA l).1] at he
        exact hj l (by omega) (by omega) he
      have hne : j ≠ (atomAt atoms i).markIdx := by
        intro he
        exact hj i (le_refl i) (by omega) he.symm
      rw [d3 j hnot, (hM j).2 hne]

/-! ## Compaction-loop invariant -/

theorem rlD_spec (atoms : List (Atom T)) (iD iA : Int) :
    iD ≤ rlD atoms iD iA ∧ rlD atoms iD iA ≤ max iD (iA + 1) ∧
    (∀ k : Int, iD ≤ k → k < rlD atoms iD iA → aliveAtI atoms k = true) ∧
    (iA < rlD atoms iD iA ∨ aliveAtI atoms (rlD atoms iD iA) = false) :=
  scanDead_spec atoms iA ((iA + 1 - iD).toNat) iD (le_refl _)

theorem rlA_spec (atoms : List (Atom T)) (iD iA : Int) :
    rlA atoms iD iA ≤ iA ∧ min (rlD atoms iD iA) iA ≤ rlA atoms iD iA ∧
    (∀ k : Int, rlA atoms iD iA < k → k ≤ iA → aliveAtI atoms k = false) ∧
    (rlA atoms iD iA ≤ rlD atoms iD iA ∨ aliveAtI atoms (rlA atoms iD iA) = true) :=
  scanAlive_spec atoms (rlD atoms iD iA) ((iA - rlD atoms iD iA).toNat) iA (le_refl _)

theorem refreshLoop_succ (fuel : Nat) (atoms : List (Atom T)) (marks : List Mark)
    (iD iA : Int) :
    refreshLoop (fuel + 1) atoms marks iD iA =
      if iA < rlD atoms iD iA then (atoms, marks, rlD atoms iD iA)
      else if rlA atoms iD iA ≤ rlD atoms iD iA then (atoms, marks, rlD atoms iD iA)
      else
        refreshLoop fuel
          (swapAtoms atoms (rlD atoms iD iA).toNat (rlA atoms iD iA).toNat)
          (marks.set
            (atomAt (swapAtoms atoms (rlD atoms iD iA).toNat (rlA atoms iD iA).toNat)
              (rlD atoms iD iA).toNat).markIdx
            ⟨(rlD atoms iD iA).toNat,
             (markAt marks
               (atomAt (swapAtoms atoms (rlD atoms iD iA).toNat (rlA atoms iD iA).toNat)
                 (rlD atoms iD iA).toNat).markIdx).ctr⟩)
          (rlD atoms iD iA + 1) (rlA atoms iD iA - 1) := by
  show (let d := scanDead atoms iA ((iA + 1 - iD).toNat) iD
    if iA < d then (atoms, marks, d)
    else
      let a := scanAlive atoms d ((iA - d).toNat) iA
      if a ≤ d then (atoms, marks, d)
      else
        let atoms2 := swapAtoms atoms d.toNat a.toNat
        let mi := (atomAt atoms2 d.toNat).markIdx
        let marks2 := marks.set mi ⟨d.toNat, (markAt marks mi).ctr⟩
        refreshLoop fuel atoms2 marks2 (d + 1) (a - 1)) = _
  rfl

theorem refreshLoop_zero (atoms : List (Atom T)) (marks : List Mark) (iD iA : Int) :
    refreshLoop 0 atoms marks iD iA = (atoms, marks, rlD atoms iD iA) := rfl

theorem refreshLoop_spec (n : Nat) :
    ∀ (fuel : Nat) (atoms : List (Atom T)) (marks : List Mark) (iD iA : Int),
    (iA - iD).toNat ≤ fuel →
    0 ≤ iD → iD ≤ iA + 1 → iA < (n : Int) → n ≤ atoms.length →
    (∀ k : Nat, (k : Int) < iD → (atomAt atoms k).alive = true) →
    (∀ k : Nat, iA < (k : Int) → k < n → (atomAt atoms k).alive = false) →
    (∀ k l : Nat, k < atoms.length → l < atoms.length →
      (atomAt atoms k).markIdx = (atomAt atoms l).markIdx → k = l) →
    (∀ k : Nat, k < atoms.length → (atomAt atoms k).markIdx < marks.length) →
    (∀ j : Nat, j < marks.length → (markAt marks j).atomIdx < atoms.length) →
    (∀ k : Nat, k < n → (atomAt atoms k).alive = true →
      (markAt marks (atomAt atoms k).markIdx).atomIdx = k) →
    (refreshLoop fuel atoms marks iD iA).1.length = atoms.length ∧
    (refreshLoop fuel atoms marks iD iA).2.1.length = marks.length ∧
    iD ≤ (refreshLoop fuel atoms marks iD iA).2.2 ∧
    (refreshLoop fuel atoms marks iD iA).2.2 ≤ (n : Int) ∧
    (∀ k : Nat, (k : Int) < (refreshLoop fuel atoms marks iD iA).2.2 →
      (atomAt (refreshLoop fuel atoms marks iD iA).1 k).alive = true) ∧
    (∀ k : Nat, (refreshLoop fuel atoms marks iD iA).2.2 ≤ (k : Int) → k < n →
      (atomAt (refreshLoop fuel atoms marks iD iA).1 k).alive = false) ∧
    countAliveUpTo (refreshLoop fuel atoms marks iD iA).1 n =
      countAliveUpTo atoms n ∧
    (∀ j, (markAt (refreshLoop fuel atoms marks iD iA).2.1 j).ctr =
      (markAt marks j).ctr) ∧
    (∀ k l : Nat, k < atoms.length → l < atoms.length →
      (atomAt (refreshLoop fuel atoms marks iD iA).1 k).markIdx =
        (atomAt (refreshLoop fuel atoms marks iD iA).1 l).markIdx → k = l) ∧
    (∀ k : Nat, k < atoms.length →
      (atomAt (refreshLoop fuel atoms marks iD iA).1 k).markIdx < marks.length) ∧
    (∀ j : Nat, j < marks.length →
      (markAt (refreshLoop fuel atoms marks iD iA).2.1 j).atomIdx < atoms.length) ∧
    (∀ k : Nat, k < n → (atomAt (refreshLoop fuel atoms marks iD iA).1 k).alive = true →
      (markAt (refreshLoop fuel atoms marks iD iA).2.1
        (atomAt (refreshLoop fuel atoms marks iD iA).1 k).markIdx).atomIdx = k) := by
  intro fuel
  induction fuel with
  | zero =>
    intro atoms marks iD iA hf h0 hle hAn hlen hpre hpost hinj hbnd hbnd2 hbij
    obtain ⟨hd1, hd2, hd3, hd4⟩ := rlD_spec atoms iD iA
    rw [refreshLoop_zero]
    have hall : ∀ k : Nat, (k : Int) < rlD atoms iD iA →
        (atomAt atoms k).alive = true := by
      intro k hk
      by_cases hkD : (k : Int) < iD
      · exact hpre k hkD
      · have h := hd3 (k : Int) (by omega) hk
        rwa [aliveAtI_natCast] at h
    have hdead : ∀ k : Nat, rlD atoms iD iA ≤ (k : Int) → k < n →
        (atomAt atoms k).alive = false := by
      intro k hk hk'
      by_cases hAk : iA < (k : Int)
      · exact hpost k hAk hk'
      · -- here iA ≤ iD (fuel exhausted) and rlD ≤ k ≤ iA, so rlD = k = iA = iD
        have hkd : (k : Int) = rlD atoms iD iA := by omega
        have h := hd4.resolve_left (by omega)
        rw [← hkd] at h
        rwa [aliveAtI_natCast] at h
    exact ⟨rfl, rfl, hd1, le_trans hd2 (by omega), hall, hdead, rfl, fun j => rfl,
      hinj, hbnd, hbnd2, hbij⟩
  | succ fuel ih =>
    intro atoms marks iD iA hf h0 hle hAn hlen hpre hpost hinj hbnd hbnd2 hbij
    obtain ⟨hd1, hd2, hd3, hd4⟩ := rlD_spec atoms iD iA
    obtain ⟨ha1, ha2, ha3, ha4⟩ := rlA_spec atoms iD iA
    rw [refreshLoop_succ]
    have hall : ∀ k : Nat, (k : Int) < rlD atoms iD iA →
        (atomAt atoms k).alive = true := by
      intro k hk
      by_cases hkD : (k : Int) < iD
      · exact hpre k hkD
      · have h := hd3 (k : Int) (by omega) hk
        rwa [aliveAtI_natCast] at h
    by_cases hx1 : iA < rlD atoms iD iA
    · rw [if_pos hx1]
      have hdead : ∀ k : Nat, rlD atoms iD iA ≤ (k : Int) → k < n →
          (atomAt atoms k).alive = false := by
        intro k hk hk'
        exact hpost k (by omega) hk'
      exact ⟨rfl, rfl, hd1, le_trans hd2 (by omega), hall, hdead, rfl, fun j => rfl,
        hinj, hbnd, hbnd2, hbij⟩
    · rw [if_neg hx1]
      by_cases hx2 : rlA atoms iD iA ≤ rlD atoms iD iA
      · rw [if_pos hx2]
        have hdDead : aliveAtI atoms (rlD atoms iD iA) = false := hd4.resolve_left hx1
        have hdead : ∀ k : Nat, rlD atoms iD iA ≤ (k : Int) → k < n →
            (atomAt atoms k).alive = false := by
          intro k hk hk'
          by_cases hAk : iA < (k : Int)
          · exact hpost k hAk hk'
          · by_cases hkd : (k : Int) = rlD atoms iD iA
            · rw [← hkd] at hdDead
              rwa [aliveAtI_natCast] at hdDead
            · have h := ha3 (k : Int) (by omega) (by omega)
              rwa [aliveAtI_natCast] at h
        exact ⟨rfl, rfl, hd1, le_trans hd2 (by omega), hall, hdead, rfl, fun j => rfl,
          hinj, hbnd, hbnd2, hbij⟩
      · rw [if_neg hx2]
        -- the swap branch
        have hda : rlD atoms iD iA < rlA atoms iD iA := by omega
        have hdDead : (atomAt atoms (rlD atoms iD iA).toNat).alive = false :=
          hd4.resolve_left hx1
        have haAlive : (atomAt atoms (rlA atoms iD iA).toNat).alive = true :=
          ha4.resolve_left hx2
        have hdl : (rlD atoms iD iA).toNat < atoms.length := by omega
        have hal : (rlA atoms iD iA).toNat < atoms.length := by omega
        have hdn : (rlD atoms iD iA).toNat < n := by omega
        have han : (rlA atoms iD iA).toNat < n := by omega
        have hne : (rlD atoms iD iA).toNat ≠ (rlA atoms iD iA).toNat := by omega
        have hswap := fun k => atomAt_swap atoms
          (rlD atoms iD iA).toNat (rlA atoms iD iA).toNat k hdl hal
        have hmi : (atomAt (swapAtoms atoms (rlD atoms iD iA).toNat
            (rlA atoms iD iA).toNat) (rlD atoms iD iA).toNat).markIdx =
            (atomAt atoms (rlA atoms iD iA).toNat).markIdx := by
          rw [hswap (rlD atoms iD iA).toNat, if_neg hne, if_pos rfl]
        rw [hmi]
        have hmiLt : (atomAt atoms (rlA atoms iD iA).toNat).markIdx < marks.length :=
          hbnd _ hal
        -- re-establish the loop invariant for the recursive call
        obtain ⟨i1, i2, i3, i4, i5, i6, i7, i8, i9, i10, i11, i12⟩ :=
          ih (swapAtoms atoms (rlD atoms iD iA).toNat (rlA atoms iD iA).toNat)
            (marks.set (atomAt atoms (rlA atoms iD iA).toNat).markIdx
              ⟨(rlD atoms iD iA).toNat,
               (markAt marks (atomAt atoms (rlA atoms iD iA).toNat).markIdx).ctr⟩)
            (rlD atoms iD iA + 1) (rlA atoms iD iA - 1)
            (by omega) (by omega) (by omega) (by omega)
            (by rw [swapAtoms_length]; omega)
            (by
              intro k hk
              rw [hswap k]
              rw [if_neg (by omega)]
              by_cases hkd : k = (rlD atoms iD iA).toNat
              · rw [if_pos hkd]
                exact haAlive
              · rw [if_neg hkd]
                exact hall k (by omega))
            (by
              intro k hk hk'
              rw [hswap k]
              by_cases hka : k = (rlA atoms iD iA).toNat
              · rw [if_pos hka]
                exact hdDead
              · rw [if_neg hka, if_neg (by omega)]
                by_cases hAk : iA < (k : Int)
                · exact hpost k hAk hk'
                · have h := ha3 (k : Int) (by omega) (by omega)
                  rwa [aliveAtI_natCast] at h)
            (by
              intro k l hk hl he
              rw [swapAtoms_length] at hk hl
              rw [hswap k, hswap l] at he
              split_ifs at he <;>
                first
                  | omega
                  | (have h9 := hinj _ _ hdl hal he; omega)
                  | (have h9 := hinj _ _ hdl hl he; omega)
                  | (have h9 := hinj _ _ hal hdl he; omega)
                  | (have h9 := hinj _ _ hal hl he; omega)
                  | (have h9 := hinj _ _ hk hdl he; omega)
                  | (have h9 := hinj _ _ hk hal he; omega)
                  | (have h9 := hinj _ _ hk hl he; omega))
            (by
              intro k hk
              rw [swapAtoms_length] at hk
              rw [List.length_set, hswap k]
              split_ifs
              · exact hbnd _ hdl
              · exact hbnd _ hal
              · exact hbnd _ hk)
            (by
              intro j hj
              rw [List.length_set] at hj
              rw [swapAtoms_length]
              by_cases hjm : j = (atomAt atoms (rlA atoms iD iA).toNat).markIdx
              · rw [hjm, markAt_set_self hmiLt]
                exact hdl
              · rw [markAt_set_ne (Ne.symm hjm)]
                exact hbnd2 j hj)
            (by
              intro k hk hkAlive
              rw [hswap k] at hkAlive ⊢
              by_cases hka : k = (rlA atoms iD iA).toNat
              · rw [if_pos hka] at hkAlive
                rw [hkAlive] at hdDead
                exact absurd hdDead (by simp)
              · rw [if_neg hka] at hkAlive ⊢
                by_cases hkd : k = (rlD atoms iD iA).toNat
                · rw [if_pos hkd] at hkAlive ⊢
                  rw [markAt_set_self hmiLt]
                  exact hkd.symm
                · rw [if_neg hkd] at hkAlive ⊢
                  have hne2 : (atomAt atoms k).markIdx ≠
                      (atomAt atoms (rlA atoms iD iA).toNat).markIdx := by
                    intro heq
                    have := hinj _ _ (by omega) hal heq
                    omega
                  rw [markAt_set_ne (Ne.symm hne2)]
                  exact hbij k hk hkAlive)
        refine ⟨?_, ?_, ?_, i4, i5, i6, ?_, ?_, ?_, ?_, ?_, i12⟩
        · rw [i1, swapAtoms_length]
        · rw [i2, List.length_set]
        · omega
        · rw [i7]
          exact countAliveUpTo_swap hdl hal hdn han
        · intro j
          rw [i8 j]
          by_cases hjm : j = (atomAt atoms (rlA atoms iD iA).toNat).markIdx
          · rw [hjm, markAt_set_self hmiLt]
          · rw [markAt_set_ne (Ne.symm hjm)]
        · intro k l hk hl he
          exact i9 k l (by rw [swapAtoms_length]; omega)
            (by rw [swapAtoms_length]; omega) he
        · intro k hk
          have h := i10 k (by rw [swapAtoms_length]; omega)
          rwa [List.length_set] at h
        · intro j hj
          have h := i11 j (by rw [List.length_set]; omega)
          rwa [swapAtoms_length] at h

/-! ## The refresh operation -/

theorem refresh_eq (m : Manager T) :
    refresh m =
      ⟨(rLoop m).2.2.toNat, (rLoop m).2.2.toNat, (rClean m).1, (rClean m).2⟩ := rfl

theorem refresh_master (m : Manager T) (hwf : WF m) :
    (refresh m).size = (refresh m).sizeNext ∧
    (refresh m).size = countAliveUpTo m.atoms m.sizeNext ∧
    (refresh m).sizeNext ≤ m.sizeNext ∧
    (refresh m).atoms.length = m.atoms.length ∧
    (refresh m).marks.length = m.marks.length ∧
    (∀ s, s < (refresh m).size → (atomAt (refresh m).atoms s).alive = true) ∧
    (∀ s, (refresh m).size ≤ s → s < m.sizeNext →
      (atomAt (refresh m).atoms s).alive = false ∧
      (atomAt (refresh m).atoms s).data = none) ∧
    (∀ s, (refresh m).size ≤ s → s < m.sizeNext →
      (markAt (refresh m).marks (atomAt (refresh m).atoms s).markIdx).ctr =
        (markAt m.marks (atomAt (refresh m).atoms s).markIdx).ctr + 1) ∧
    (∀ j, (∃ s, (refresh m).size ≤ s ∧ s < m.sizeNext ∧
        (atomAt (refresh m).atoms s).markIdx = j) →
      (markAt (refresh m).marks j).ctr = (markAt m.marks j).ctr + 1) ∧
    (∀ j, (∀ s, (refresh m).size ≤ s → s < m.sizeNext →
        (atomAt (refresh m).atoms s).markIdx ≠ j) →
      (markAt (refresh m).marks j).ctr = (markAt m.marks j).ctr) ∧
    WF (refresh m) := by
  have hcap := hwf.sizeNextLe
  obtain ⟨s1, s2, s3, s4, s5, s6, s7, s8, s9, s10, s11, s12⟩ :=
    refreshLoop_spec m.sizeNext m.sizeNext m.atoms m.marks 0 ((m.sizeNext : Int) - 1)
      (by omega) (le_refl 0) (by omega) (by omega) hcap
      (fun k hk => absurd hk (by omega))
      (fun k hk hk' => absurd hk' (by omega))
      hwf.inj hwf.markIdxLt hwf.atomIdxLt
      (fun k hk _ => hwf.bij k hk)
  have hfold : refreshLoop m.sizeNext m.atoms m.marks 0 ((m.sizeNext : Int) - 1) =
      rLoop m := rfl
  rw [hfold] at s1 s2 s3 s4 s5 s6 s7 s8 s9 s10 s11 s12
  have hd0 : 0 ≤ (rLoop m).2.2 := s3
  have hdn : (rLoop m).2.2 ≤ (m.sizeNext : Int) := s4
  have hcount : countAliveUpTo (rLoop m).1 m.sizeNext = (rLoop m).2.2.toNat :=
    countAliveUpTo_of_partitioned
      (fun k hk => s5 k (by omega))
      (fun k hk hk' => s6 k (by omega) hk')
      (by omega)
  have hsizeC : (rLoop m).2.2.toNat = countAliveUpTo m.atoms m.sizeNext :=
    hcount.symm.trans s7
  obtain ⟨b1, b2, b3, b4, b5, b6, b7⟩ := cleanupCount_basic
    (m.sizeNext - (rLoop m).2.2.toNat) (rLoop m).1 (rLoop m).2.1 (rLoop m).2.2.toNat
  obtain ⟨d1, d2, d3⟩ := cleanupCount_exact
    (m.sizeNext - (rLoop m).2.2.toNat) (rLoop m).1 (rLoop m).2.1 (rLoop m).2.2.toNat
    (by rw [s1]; omega)
    (fun k l hk hk' hl hl' he => s9 k l (by omega) (by omega) he)
    (fun k hk hk' => by rw [s2]; exact s10 k (by omega))
  have hfold2 : cleanupCount (rLoop m).1 (rLoop m).2.1 (rLoop m).2.2.toNat
      (m.sizeNext - (rLoop m).2.2.toNat) = rClean m := rfl
  rw [hfold2] at b1 b2 b3 b4 b5 b6 b7 d1 d2 d3
  have hrange : (rLoop m).2.2.toNat + (m.sizeNext - (rLoop m).2.2.toNat) =
      m.sizeNext := by omega
  -- the eleven conclusions, phrased at the `rClean`/`rLoop` level
  have c6 : ∀ s, s < (rLoop m).2.2.toNat →
      (atomAt (rClean m).1 s).alive = true := by
    intro s hs
    rw [b4 s]
    exact s5 s (by omega)
  have c7 : ∀ s, (rLoop m).2.2.toNat ≤ s → s < m.sizeNext →
      (atomAt (rClean m).1 s).alive = false ∧ (atomAt (rClean m).1 s).data = none := by
    intro s hs hs'
    constructor
    · rw [b4 s]
      exact s6 s (by omega) hs'
    · exact d1 s hs (by omega)
  have c9 : ∀ j, (∃ s, (rLoop m).2.2.toNat ≤ s ∧ s < m.sizeNext ∧
      (atomAt (rClean m).1 s).markIdx = j) →
      (markAt (rClean m).2 j).ctr = (markAt m.marks j).ctr + 1 := by
    rintro j ⟨s, hs, hs', hsj⟩
    rw [b3 s] at hsj
    rw [d2 j ⟨s, hs, by omega, hsj⟩, s8 j]
  have c10 : ∀ j, (∀ s, (rLoop m).2.2.toNat ≤ s → s < m.sizeNext →
      (atomAt (rClean m).1 s).markIdx ≠ j) →
      (markAt (rClean m).2 j).ctr = (markAt m.marks j).ctr := by
    intro j hj
    rw [d3 j (fun s hs hs' => by
      have h := hj s hs (by omega)
      rwa [b3 s] at h), s8 j]
  have c8 : ∀ s, (rLoop m).2.2.toNat ≤ s → s < m.sizeNext →
      (markAt (rClean m).2 (atomAt (rClean m).1 s).markIdx).ctr =
        (markAt m.marks (atomAt (rClean m).1 s).markIdx).ctr + 1 := by
    intro s hs hs'
    exact c9 _ ⟨s, hs, hs', rfl⟩
  have hlenEq := hwf.lenEq
  have cwf : WF (refresh m) := by
    refine ⟨?_, le_refl _, ?_, ?_, ?_, ?_, ?_⟩
    · show (rClean m).1.length = (rClean m).2.length
      omega
    · show (rLoop m).2.2.toNat ≤ (rClean m).1.length
      omega
    · show ∀ k, k < (rClean m).1.length →
        (atomAt (rClean m).1 k).markIdx < (rClean m).2.length
      intro k hk
      rw [b3 k, b2, s2]
      exact s10 k (by omega)
    · show ∀ j, j < (rClean m).2.length →
        (markAt (rClean m).2 j).atomIdx < (rClean m).1.length
      intro j hj
      rw [b6 j, b1, s1]
      exact s11 j (by omega)
    · show ∀ k l, k < (rClean m).1.length → l < (rClean m).1.length →
        (atomAt (rClean m).1 k).markIdx = (atomAt (rClean m).1 l).markIdx → k = l
      intro k l hk hl he
      rw [b3 k, b3 l] at he
      exact s9 k l (by omega) (by omega) he
    · show ∀ s, s < (rLoop m).2.2.toNat →
        (markAt (rClean m).2 (atomAt (rClean m).1 s).markIdx).atomIdx = s
      intro s hs
      rw [b3 s, b6 _]
      have halive : (atomAt (rLoop m).1 s).alive = true := s5 s (by omega)
      exact s12 s (by omega) halive
  exact ⟨rfl, hsizeC,
    by show (rLoop m).2.2.toNat ≤ m.sizeNext; omega,
    by show (rClean m).1.length = m.atoms.length; omega,
    by show (rClean m).2.length = m.marks.length; omega,
    c6, c7, c8, c9, c10, cwf⟩

/-! ## Growth and creation -/

theorem growBy_atoms_length (m : Manager T) (c : Nat) :
    (growBy m c).atoms.length = m.atoms.length + c := by
  simp [growBy]

theorem growBy_marks_length (m : Manager T) (c : Nat) :
    (growBy m c).marks.length = m.marks.length + c := by
  simp [growBy]

theorem growBy_size (m : Manager T) (c : Nat) : (growBy m c).size = m.size := rfl

theorem growBy_sizeNext (m : Manager T) (c : Nat) :
    (growBy m c).sizeNext = m.sizeNext := rfl

theorem atomAt_growBy (m : Manager T) (c k : Nat) :
    atomAt (growBy m c).atoms k =
      if k < m.atoms.length then atomAt m.atoms k
      else if k < m.atoms.length + c then ⟨none, k, false⟩
      else defAtom := by
  show atomAt (m.atoms ++ (List.range' m.atoms.length c).map
    (fun i => ⟨none, i, false⟩)) k = _
  by_cases h1 : k < m.atoms.length
  · rw [if_pos h1]
    exact atomAt_append_left h1
  · rw [if_neg h1]
    by_cases h2 : k < m.atoms.length + c
    · rw [if_pos h2]
      have hidx : m.atoms.length + 1 * (k - m.atoms.length) = k := by omega
      unfold atomAt
      rw [List.getElem?_append_right (by omega), List.getElem?_map,
        List.getElem?_range' _ _ (by omega), hidx]
      rfl
    · rw [if_neg h2]
      apply atomAt_oob
      rw [List.length_append, List.length_map, List.length_range']
      omega

theorem markAt_growBy (m : Manager T) (c j : Nat)
    (hlen : m.atoms.length = m.marks.length) :
    markAt (growBy m c).marks j =
      if j < m.marks.length then markAt m.marks j
      else if j < m.marks.length + c then ⟨j, 0⟩
      else defMark := by
  show markAt (m.marks ++ (List.range' m.atoms.length c).map
    (fun i => ⟨i, 0⟩)) j = _
  by_cases h1 : j < m.marks.length
  · rw [if_pos h1]
    exact markAt_append_left h1
  · rw [if_neg h1]
    by_cases h2 : j < m.marks.length + c
    · rw [if_pos h2]
      have hidx : m.atoms.length + 1 * (j - m.marks.length) = j := by omega
      unfold markAt
      rw [List.getElem?_append_right (by omega), List.getElem?_map,
        List.getElem?_range' _ _ (by omega), hidx]
      rfl
    · rw [if_neg h2]
      apply markAt_oob
      rw [List.length_append, List.length_map, List.length_range']
      omega

theorem wf_growBy (m : Manager T) (c : Nat) (hwf : WF m) : WF (growBy m c) := by
  have hlen := hwf.lenEq
  have hA := atomAt_growBy m c
  have hM := fun j => markAt_growBy m c j hlen
  have hal := growBy_atoms_length m c
  have hml := growBy_marks_length m c
  refine ⟨?_, hwf.sizeLe, ?_, ?_, ?_, ?_, ?_⟩
  · rw [hal, hml]
    omega
  · rw [hal, growBy_sizeNext]
    have := hwf.sizeNextLe
    omega
  · intro k hk
    rw [hal] at hk
    rw [hA k, hml]
    by_cases h1 : k < m.atoms.length
    · rw [if_pos h1]
      exact lt_of_lt_of_le (hwf.markIdxLt k h1) (Nat.le_add_right _ _)
    · rw [if_neg h1, if_pos (by omega)]
      show k < m.marks.length + c
      omega
  · intro j hj
    rw [hml] at hj
    rw [hM j, hal]
    by_cases h1 : j < m.marks.length
    · rw [if_pos h1]
      exact lt_of_lt_of_le (hwf.atomIdxLt j h1) (Nat.le_add_right _ _)
    · rw [if_neg h1, if_pos (by omega)]
      show j < m.atoms.length + c
      omega
  · intro k l hk hl he
    rw [hal] at hk hl
    rw [hA k, hA l] at he
    by_cases h1 : k < m.atoms.length <;> by_cases h2 : l < m.atoms.length
    · rw [if_pos h1, if_pos h2] at he
      exact hwf.inj k l h1 h2 he
    · rw [if_pos h1, if_neg h2, if_pos (by omega)] at he
      have hb := hwf.markIdxLt k h1
      have hXl : (atomAt m.atoms k).markIdx = l := he
      have hlM : l < m.marks.length := hXl ▸ hb
      exact absurd (hlen.symm ▸ hlM) h2
    · rw [if_neg h1, if_pos (by omega), if_pos h2] at he
      have hb := hwf.markIdxLt l h2
      have hXk : (atomAt m.atoms l).markIdx = k := he.symm
      have hkM : k < m.marks.length := hXk ▸ hb
      exact absurd (hlen.symm ▸ hkM) h1
    · rw [if_neg h1, if_pos (by omega), if_neg h2, if_pos (by omega)] at he
      exact he
  · intro s hs
    rw [growBy_sizeNext] at hs
    have hsl : s < m.atoms.length := lt_of_lt_of_le hs hwf.sizeNextLe
    rw [hA s, if_pos hsl, hM _, if_pos (hwf.markIdxLt s hsl)]
    exact hwf.bij s hs

/-! ## Creation, destruction and update: well-formedness -/

theorem atomAt_set_cases (atoms : List (Atom T)) (i : Nat) (b : Atom T) (k : Nat) :
    (k ≠ i → atomAt (atoms.set i b) k = atomAt atoms k) ∧
    (i < atoms.length → atomAt (atoms.set i b) i = b) ∧
    (atoms.length ≤ i → atoms.set i b = atoms) :=
  ⟨fun hk => atomAt_set_ne (Ne.symm hk),
   fun hi => atomAt_set_self hi,
   fun hi => List.set_eq_of_length_le hi⟩

theorem markAt_set_cases (marks : List Mark) (j : Nat) (w : Mark) (l : Nat) :
    (l ≠ j → markAt (marks.set j w) l = markAt marks l) ∧
    (j < marks.length → markAt (marks.set j w) j = w) ∧
    (marks.length ≤ j → marks.set j w = marks) :=
  ⟨fun hl => markAt_set_ne (Ne.symm hl),
   fun hj => markAt_set_self hj,
   fun hj => List.set_eq_of_length_le hj⟩

theorem insertAtom_spec (m1 : Manager T) (x : T) (hwf : WF m1)
    (hcap : m1.sizeNext < m1.atoms.length) :
    (insertAtom m1 x).size = m1.size ∧
    (insertAtom m1 x).sizeNext = m1.sizeNext + 1 ∧
    (insertAtom m1 x).atoms.length = m1.atoms.length ∧
    (insertAtom m1 x).marks.length = m1.marks.length ∧
    (∀ j, (markAt (insertAtom m1 x).marks j).ctr = (markAt m1.marks j).ctr) ∧
    atomAt (insertAtom m1 x).atoms m1.sizeNext =
      { atomAt m1.atoms m1.sizeNext with data := some x, alive := true } ∧
    markAt (insertAtom m1 x).marks (atomAt m1.atoms m1.sizeNext).markIdx =
      { markAt m1.marks (atomAt m1.atoms m1.sizeNext).markIdx with
        atomIdx := m1.sizeNext } ∧
    (∀ k, k ≠ m1.sizeNext → atomAt (insertAtom m1 x).atoms k = atomAt m1.atoms k) ∧
    WF (insertAtom m1 x) := by
  have hlen := hwf.lenEq
  have htgt : (atomAt m1.atoms m1.sizeNext).markIdx < m1.marks.length :=
    hwf.markIdxLt m1.sizeNext hcap
  have hAc := atomAt_set_cases m1.atoms m1.sizeNext
    { atomAt m1.atoms m1.sizeNext with data := some x, alive := true }
  have hMc := markAt_set_cases m1.marks (atomAt m1.atoms m1.sizeNext).markIdx
    { markAt m1.marks (atomAt m1.atoms m1.sizeNext).markIdx with
      atomIdx := m1.sizeNext }
  have hAtop : atomAt (insertAtom m1 x).atoms m1.sizeNext =
      { atomAt m1.atoms m1.sizeNext with data := some x, alive := true } :=
    (hAc m1.sizeNext).2.1 hcap
  have hAother : ∀ k, k ≠ m1.sizeNext →
      atomAt (insertAtom m1 x).atoms k = atomAt m1.atoms k :=
    fun k hk => (hAc k).1 hk
  have hMtop : markAt (insertAtom m1 x).marks (atomAt m1.atoms m1.sizeNext).markIdx =
      { markAt m1.marks (atomAt m1.atoms m1.sizeNext).markIdx with
        atomIdx := m1.sizeNext } :=
    (hMc 0).2.1 htgt
  have hMother : ∀ j, j ≠ (atomAt m1.atoms m1.sizeNext).markIdx →
      markAt (insertAtom m1 x).marks j = markAt m1.marks j :=
    fun j hj => (hMc j).1 hj
  have hmIdx : ∀ k, (atomAt (insertAtom m1 x).atoms k).markIdx =
      (atomAt m1.atoms k).markIdx := by
    intro k
    by_cases hk : k = m1.sizeNext
    · subst hk
      rw [hAtop]
    · rw [hAother k hk]
  have hctr : ∀ j, (markAt (insertAtom m1 x).marks j).ctr =
      (markAt m1.marks j).ctr := by
    intro j
    by_cases hj : j = (atomAt m1.atoms m1.sizeNext).markIdx
    · subst hj
      rw [hMtop]
    · rw [hMother j hj]
  have halen : (insertAtom m1 x).atoms.length = m1.atoms.length :=
    List.length_set m1.atoms _ _
  have hmlen : (insertAtom m1 x).marks.length = m1.marks.length :=
    List.length_set m1.marks _ _
  refine ⟨rfl, rfl, halen, hmlen, hctr, hAtop, hMtop, hAother, ?_⟩
  refine ⟨by rw [halen, hmlen]; exact hlen, ?_, ?_, ?_, ?_, ?_, ?_⟩
  · show m1.size ≤ m1.sizeNext + 1
    have := hwf.sizeLe
    omega
  · show m1.sizeNext + 1 ≤ (insertAtom m1 x).atoms.length
    rw [halen]
    omega
  · intro k hk
    rw [halen] at hk
    rw [hmIdx k, hmlen]
    exact hwf.markIdxLt k hk
  · intro j hj
    rw [hmlen] at hj
    rw [halen]
    by_cases hjt : j = (atomAt m1.atoms m1.sizeNext).markIdx
    · subst hjt
      rw [hMtop]
      exact hcap
    · rw [hMother j hjt]
      exact hwf.atomIdxLt j hj
  · intro k l hk hl he
    rw [halen] at hk hl
    rw [hmIdx k, hmIdx l] at he
    exact hwf.inj k l hk hl he
  · intro s hs
    show (markAt (insertAtom m1 x).marks
      (atomAt (insertAtom m1 x).atoms s).markIdx).atomIdx = s
    rw [hmIdx s]
    by_cases hst : s = m1.sizeNext
    · subst hst
      rw [hMtop]
    · have hsl : s < m1.sizeNext := by
        have : s < (insertAtom m1 x).sizeNext := hs
        have h2 : (insertAtom m1 x).sizeNext = m1.sizeNext + 1 := rfl
        omega
      have hne : (atomAt m1.atoms s).markIdx ≠
          (atomAt m1.atoms m1.sizeNext).markIdx := by
        intro heq
        exact hst (hwf.inj s m1.sizeNext (by omega) hcap heq)
      rw [hMother _ hne]
      exact hwf.bij s hsl

theorem createAtom_grown (m : Manager T) :
    WF m →
    WF (growIfNeeded m) ∧
    (growIfNeeded m).sizeNext = m.sizeNext ∧
    (growIfNeeded m).size = m.size ∧
    m.sizeNext < (growIfNeeded m).atoms.length ∧
    m.marks.length ≤ (growIfNeeded m).marks.length ∧
    (∀ j, (markAt (growIfNeeded m).marks j).ctr = (markAt m.marks j).ctr) := by
  intro hwf
  unfold growIfNeeded
  by_cases h : m.atoms.length ≤ m.sizeNext
  · rw [if_pos h]
    have hg := wf_growBy m 10 hwf
    have hal := growBy_atoms_length m 10
    have hml := growBy_marks_length m 10
    refine ⟨hg, growBy_sizeNext m 10, growBy_size m 10, ?_, ?_, ?_⟩
    · rw [hal]
      have := hwf.sizeNextLe
      omega
    · rw [hml]
      omega
    · intro j
      rw [markAt_growBy m 10 j hwf.lenEq]
      by_cases h1 : j < m.marks.length
      · rw [if_pos h1]
      · rw [if_neg h1]
        rw [markAt_oob (Nat.le_of_not_lt h1)]
        by_cases h2 : j < m.marks.length + 10
        · rw [if_pos h2]
          rfl
        · rw [if_neg h2]
  · rw [if_neg h]
    refine ⟨hwf, rfl, rfl, by omega, le_refl _, fun j => rfl⟩

theorem wf_create (m : Manager T) (x : T) (hwf : WF m) : WF (create m x).1 := by
  obtain ⟨hg, hsn, hs, hcap, hml, hctr⟩ := createAtom_grown m hwf
  have := insertAtom_spec (growIfNeeded m) x hg (by omega)
  exact this.2.2.2.2.2.2.2.2

theorem destroy_eq (m : Manager T) (i : HIdx) :
    (destroy m i).atoms = m.atoms.set (markAt m.marks i).atomIdx
      { atomAt m.atoms (markAt m.marks i).atomIdx with alive := false } := rfl

theorem wf_destroy (m : Manager T) (i : HIdx) (hwf : WF m) : WF (destroy m i) := by
  have hAc := atomAt_set_cases m.atoms (markAt m.marks i).atomIdx
    { atomAt m.atoms (markAt m.marks i).atomIdx with alive := false }
  have hmIdx : ∀ k, (atomAt (destroy m i).atoms k).markIdx =
      (atomAt m.atoms k).markIdx := by
    intro k
    rw [destroy_eq]
    by_cases hk : k = (markAt m.marks i).atomIdx
    · rw [hk]
      by_cases hl : (markAt m.marks i).atomIdx < m.atoms.length
      · rw [(hAc 0).2.1 hl]
      · rw [(hAc 0).2.2 (Nat.le_of_not_lt hl)]
    · rw [(hAc k).1 hk]
  have halen : (destroy m i).atoms.length = m.atoms.length :=
    List.length_set m.atoms _ _
  refine ⟨by rw [halen]; exact hwf.lenEq, hwf.sizeLe, ?_, ?_, ?_, ?_, ?_⟩
  · show m.sizeNext ≤ (destroy m i).atoms.length
    rw [halen]
    exact hwf.sizeNextLe
  · intro k hk
    rw [halen] at hk
    rw [hmIdx k]
    exact hwf.markIdxLt k hk
  · intro j hj
    show (markAt m.marks j).atomIdx < (destroy m i).atoms.length
    rw [halen]
    exact hwf.atomIdxLt j hj
  · intro k l hk hl he
    rw [halen] at hk hl
    rw [hmIdx k, hmIdx l] at he
    exact hwf.inj k l hk hl he
  · intro s hs
    show (markAt m.marks (atomAt (destroy m i).atoms s).markIdx).atomIdx = s
    rw [hmIdx s]
    exact hwf.bij s hs

theorem updateAtom_markIdx (f : T → T × Bool) (a : Atom T) :
    (updateAtom f a).markIdx = a.markIdx := by
  unfold updateAtom
  cases a.data <;> rfl

theorem updateAtom_defAtom (f : T → T × Bool) :
    updateAtom f (defAtom : Atom T) = defAtom := rfl

theorem atomAt_map_update (f : T → T × Bool) (atoms : List (Atom T)) (k : Nat) :
    atomAt (atoms.map (updateAtom f)) k = updateAtom f (atomAt atoms k) := by
  unfold atomAt
  rw [List.getElem?_map]
  cases atoms[k]? <;> rfl

theorem wf_update (f : T → T × Bool) (m : Manager T) (hwf : WF m) :
    WF (update f m) := by
  have hmIdx : ∀ k, (atomAt (update f m).atoms k).markIdx =
      (atomAt m.atoms k).markIdx := by
    intro k
    show (atomAt (m.atoms.map (updateAtom f)) k).markIdx = _
    rw [atomAt_map_update, updateAtom_markIdx]
  have halen : (update f m).atoms.length = m.atoms.length :=
    List.length_map m.atoms _
  refine ⟨by rw [halen]; exact hwf.lenEq, hwf.sizeLe, ?_, ?_, ?_, ?_, ?_⟩
  · show m.sizeNext ≤ (update f m).atoms.length
    rw [halen]
    exact hwf.sizeNextLe
  · intro k hk
    rw [halen] at hk
    rw [hmIdx k]
    exact hwf.markIdxLt k hk
  · intro j hj
    show (markAt m.marks j).atomIdx < (update f m).atoms.length
    rw [halen]
    exact hwf.atomIdxLt j hj
  · intro k l hk hl he
    rw [halen] at hk hl
    rw [hmIdx k, hmIdx l] at he
    exact hwf.inj k l hk hl he
  · intro s hs
    show (markAt m.marks (atomAt (update f m).atoms s).markIdx).atomIdx = s
    rw [hmIdx s]
    exact hwf.bij s hs

theorem wf_init : WF (initManager : Manager T) := by
  refine ⟨rfl, le_refl 0, le_refl 0, ?_, ?_, ?_, ?_⟩
  · intro k hk
    simp [initManager] at hk
  · intro j hj
    simp [initManager] at hj
  · intro k l hk hl _
    simp [initManager] at hk
  · intro s hs
    simp [initManager] at hs

theorem wf_of_reach {m : Manager T} (h : Reach m) : WF m := by
  induction h with
  | init => exact wf_init
  | createStep m x _ ih => exact wf_create m x ih
  | destroyStep m i _ ih => exact wf_destroy m i ih
  | updateStep m f _ ih => exact wf_update f m ih
  | refreshStep m _ ih =>
    exact (refresh_master m ih).2.2.2.2.2.2.2.2.2.2

/-! ## Refresh on an already-compacted state -/

theorem scanDead_all_alive (atoms : List (Atom T)) (iA : Int) :
    ∀ (fuel : Nat) (iD : Int), (iA + 1 - iD).toNat ≤ fuel → 0 ≤ iD →
    iD ≤ iA + 1 →
    (∀ k : Nat, iD ≤ (k : Int) → (k : Int) ≤ iA → (atomAt atoms k).alive = true) →
    scanDead atoms iA fuel iD = iA + 1 := by
  intro fuel
  induction fuel with
  | zero =>
    intro iD hf h0 hle _
    simp only [scanDead]
    omega
  | succ fuel ih =>
    intro iD hf h0 hle hall
    simp only [scanDead]
    by_cases hAd : iA < iD
    · rw [if_pos hAd]
      omega
    · rw [if_neg hAd]
      have halD : aliveAtI atoms iD = true := by
        show (atomAt atoms iD.toNat).alive = true
        exact hall iD.toNat (by omega) (by omega)
      rw [if_pos halD]
      exact ih (iD + 1) (by omega) (by omega) (by omega)
        (fun k hk hk' => hall k (by omega) hk')

theorem rlD_all_alive (atoms : List (Atom T)) (iD iA : Int) (h0 : 0 ≤ iD)
    (hle : iD ≤ iA + 1)
    (hall : ∀ k : Nat, iD ≤ (k : Int) → (k : Int) ≤ iA →
      (atomAt atoms k).alive = true) :
    rlD atoms iD iA = iA + 1 :=
  scanDead_all_alive atoms iA ((iA + 1 - iD).toNat) iD (le_refl _) h0 hle hall

theorem refreshLoop_all_alive (fuel : Nat) (atoms : List (Atom T))
    (marks : List Mark) (iD iA : Int) (h0 : 0 ≤ iD) (hle : iD ≤ iA + 1)
    (hall : ∀ k : Nat, iD ≤ (k : Int) → (k : Int) ≤ iA →
      (atomAt atoms k).alive = true) :
    refreshLoop fuel atoms marks iD iA = (atoms, marks, iA + 1) := by
  cases fuel with
  | zero =>
    rw [refreshLoop_zero, rlD_all_alive atoms iD iA h0 hle hall]
  | succ fuel =>
    rw [refreshLoop_succ, rlD_all_alive atoms iD iA h0 hle hall,
      if_pos (by omega : iA < iA + 1)]

theorem refresh_fixed (m : Manager T)
    (hall : ∀ k : Nat, k < m.sizeNext → (atomAt m.atoms k).alive = true)
    (hsz : m.size = m.sizeNext) :
    refresh m = m := by
  have hL : rLoop m = (m.atoms, m.marks, ((m.sizeNext : Int) - 1) + 1) := by
    show refreshLoop m.sizeNext m.atoms m.marks 0 ((m.sizeNext : Int) - 1) = _
    exact refreshLoop_all_alive m.sizeNext m.atoms m.marks 0 ((m.sizeNext : Int) - 1)
      (le_refl 0) (by omega) (fun k hk hk' => hall k (by omega))
  have hL' : rLoop m = (m.atoms, m.marks, (m.sizeNext : Int)) := by
    rw [hL]
    rw [show ((m.sizeNext : Int) - 1) + 1 = (m.sizeNext : Int) from by omega]
  have hC : rClean m = ((rLoop m).1, (rLoop m).2.1) := by
    show cleanupCount (rLoop m).1 (rLoop m).2.1 (rLoop m).2.2.toNat
      (m.sizeNext - (rLoop m).2.2.toNat) = _
    have htn : (rLoop m).2.2.toNat = m.sizeNext := by
      rw [hL']
      rfl
    rw [htn, Nat.sub_self]
    rfl
  obtain ⟨sz, szN, atoms, marks⟩ := m
  have hsz' : sz = szN := hsz
  rw [refresh_eq, hC, hL']
  simp only []
  rw [hsz']
  rfl

/-! ## Control counters never decrease (no well-formedness needed) -/

theorem markAt_set_ctr_keep (marks : List Mark) (j : Nat) (w : Mark)
    (hc : w.ctr = (markAt marks j).ctr) (l : Nat) :
    (markAt (marks.set j w) l).ctr = (markAt marks l).ctr := by
  by_cases hl : l = j
  · rw [hl]
    by_cases hj : j < marks.length
    · rw [markAt_set_self hj, hc]
    · rw [List.set_eq_of_length_le (Nat.le_of_not_lt hj)]
  · rw [markAt_set_ne (Ne.symm hl)]

theorem refreshLoop_ctr :
    ∀ (fuel : Nat) (atoms : List (Atom T)) (marks : List Mark) (iD iA : Int),
    (refreshLoop fuel atoms marks iD iA).2.1.length = marks.length ∧
    (refreshLoop fuel atoms marks iD iA).1.length = atoms.length ∧
    (∀ j, (markAt (refreshLoop fuel atoms marks iD iA).2.1 j).ctr =
      (markAt marks j).ctr) := by
  intro fuel
  induction fuel with
  | zero =>
    intro atoms marks iD iA
    rw [refreshLoop_zero]
    exact ⟨rfl, rfl, fun j => rfl⟩
  | succ fuel ih =>
    intro atoms marks iD iA
    rw [refreshLoop_succ]
    by_cases hx1 : iA < rlD atoms iD iA
    · rw [if_pos hx1]
      exact ⟨rfl, rfl, fun j => rfl⟩
    · rw [if_neg hx1]
      by_cases hx2 : rlA atoms iD iA ≤ rlD atoms iD iA
      · rw [if_pos hx2]
        exact ⟨rfl, rfl, fun j => rfl⟩
      · rw [if_neg hx2]
        obtain ⟨i1, i2, i3⟩ := ih
          (swapAtoms atoms (rlD atoms iD iA).toNat (rlA atoms iD iA).toNat)
          (marks.set
            (atomAt (swapAtoms atoms (rlD atoms iD iA).toNat (rlA atoms iD iA).toNat)
              (rlD atoms iD iA).toNat).markIdx
            ⟨(rlD atoms iD iA).toNat,
             (markAt marks
               (atomAt (swapAtoms atoms (rlD atoms iD iA).toNat
                 (rlA atoms iD iA).toNat) (rlD atoms iD iA).toNat).markIdx).ctr⟩)
          (rlD atoms iD iA + 1) (rlA atoms iD iA - 1)
        refine ⟨?_, ?_, ?_⟩
        · rw [i1, List.length_set]
        · rw [i2, swapAtoms_length]
        · intro j
          rw [i3 j]
          refine markAt_set_ctr_keep _ _ _ ?_ j
          rfl

theorem cleanup_ctr_mono :
    ∀ (c : Nat) (atoms : List (Atom T)) (marks : List Mark) (i : Nat) (j : Nat),
    (markAt marks j).ctr ≤ (markAt (cleanupCount atoms marks i c).2 j).ctr :=
  fun c atoms marks i j => ((cleanupCount_basic c atoms marks i).2.2.2.2.2.2) j

theorem refresh_marks_length (m : Manager T) :
    (refresh m).marks.length = m.marks.length := by
  show (rClean m).2.length = m.marks.length
  have hb := (cleanupCount_basic (m.sizeNext - (rLoop m).2.2.toNat) (rLoop m).1
    (rLoop m).2.1 (rLoop m).2.2.toNat).2.1
  have hfold2 : cleanupCount (rLoop m).1 (rLoop m).2.1 (rLoop m).2.2.toNat
      (m.sizeNext - (rLoop m).2.2.toNat) = rClean m := rfl
  rw [hfold2] at hb
  have hl := (refreshLoop_ctr m.sizeNext m.atoms m.marks 0 ((m.sizeNext : Int) - 1)).1
  have hfold : refreshLoop m.sizeNext m.atoms m.marks 0 ((m.sizeNext : Int) - 1) =
      rLoop m := rfl
  rw [hfold] at hl
  rw [hb, hl]

theorem refresh_ctr_mono (m : Manager T) (j : Nat) :
    (markAt m.marks j).ctr ≤ (markAt (refresh m).marks j).ctr := by
  show (markAt m.marks j).ctr ≤ (markAt (rClean m).2 j).ctr
  have hmono := cleanup_ctr_mono (m.sizeNext - (rLoop m).2.2.toNat) (rLoop m).1
    (rLoop m).2.1 (rLoop m).2.2.toNat j
  have hfold2 : cleanupCount (rLoop m).1 (rLoop m).2.1 (rLoop m).2.2.toNat
      (m.sizeNext - (rLoop m).2.2.toNat) = rClean m := rfl
  rw [hfold2] at hmono
  have hl := (refreshLoop_ctr m.sizeNext m.atoms m.marks 0
    ((m.sizeNext : Int) - 1)).2.2 j
  have hfold : refreshLoop m.sizeNext m.atoms m.marks 0 ((m.sizeNext : Int) - 1) =
      rLoop m := rfl
  rw [hfold] at hl
  rw [← hl]
  exact hmono

theorem mem_new_marks_ctr0 (s c : Nat) (w : Mark)
    (hw : w ∈ (List.range' s c).map (fun i => (⟨i, 0⟩ : Mark))) : w.ctr = 0 := by
  obtain ⟨i, _, hi⟩ := List.mem_map.mp hw
  rw [← hi]

theorem markAt_append_ctr (marks new : List Mark)
    (hnew : ∀ w ∈ new, w.ctr = 0) (j : Nat) :
    (markAt (marks ++ new) j).ctr = (markAt marks j).ctr := by
  by_cases hj : j < marks.length
  · rw [markAt_append_left hj]
  · rw [markAt_oob (Nat.le_of_not_lt hj)]
    show (markAt (marks ++ new) j).ctr = 0
    unfold markAt
    rw [List.getElem?_append_right (Nat.le_of_not_lt hj)]
    cases hh : new[j - marks.length]? with
    | none => rfl
    | some w =>
      have hmem : w ∈ new := List.getElem?_mem hh
      simp only [Option.getD_some]
      exact hnew w hmem

theorem create_ctr_eq (m : Manager T) (x : T) (j : Nat) :
    (markAt (create m x).1.marks j).ctr = (markAt m.marks j).ctr := by
  have hstep : (markAt (create m x).1.marks j).ctr =
      (markAt (growIfNeeded m).marks j).ctr := by
    show (markAt ((growIfNeeded m).marks.set
      (atomAt (growIfNeeded m).atoms (growIfNeeded m).sizeNext).markIdx
      { markAt (growIfNeeded m).marks
          (atomAt (growIfNeeded m).atoms (growIfNeeded m).sizeNext).markIdx with
        atomIdx := (growIfNeeded m).sizeNext }) j).ctr = _
    refine markAt_set_ctr_keep _ _ _ ?_ j
    rfl
  rw [hstep]
  unfold growIfNeeded
  by_cases h : m.atoms.length ≤ m.sizeNext
  · rw [if_pos h]
    show (markAt (m.marks ++ (List.range' m.atoms.length 10).map
      (fun i => ⟨i, 0⟩)) j).ctr = _
    exact markAt_append_ctr _ _ (mem_new_marks_ctr0 m.atoms.length 10) j
  · rw [if_neg h]

theorem create_marks_length_le (m : Manager T) (x : T) :
    m.marks.length ≤ (create m x).1.marks.length := by
  have hstep : (create m x).1.marks.length = (growIfNeeded m).marks.length :=
    List.length_set _ _ _
  rw [hstep]
  unfold growIfNeeded
  by_cases h : m.atoms.length ≤ m.sizeNext
  · rw [if_pos h, growBy_marks_length]
    omega
  · rw [if_neg h]

theorem step_ctr_mono {m m' : Manager T} (h : OpStep m m') (j : Nat) :
    (markAt m.marks j).ctr ≤ (markAt m'.marks j).ctr ∧
    m.marks.length ≤ m'.marks.length := by
  cases h with
  | createStep x =>
    exact ⟨le_of_eq (create_ctr_eq m x j).symm, create_marks_length_le m x⟩
  | destroyStep i => exact ⟨le_refl _, le_refl _⟩
  | updateStep f => exact ⟨le_refl _, le_refl _⟩
  | refreshStep =>
    exact ⟨refresh_ctr_mono m j, le_of_eq (refresh_marks_length m).symm⟩

/-! ## Handle validity basics -/

theorem markAt_eq_getElem {marks : List Mark} {j : Nat} (h : j < marks.length) :
    markAt marks j = marks[j] := by
  unfold markAt
  rw [List.getElem?_eq_getElem h]
  rfl

theorem isAlive_eq (h : Handle) (m : Manager T) (hb : h.markIdx < m.marks.length) :
    h.isAlive m = ((markAt m.marks h.markIdx).ctr == h.ctr) := by
  unfold Handle.isAlive
  rw [List.getElem?_eq_getElem hb, markAt_eq_getElem hb]

theorem create_handle_spec (m : Manager T) (x : T) (hwf : WF m) :
    (create m x).2.markIdx < (create m x).1.marks.length ∧
    (markAt (create m x).1.marks (create m x).2.markIdx).ctr = (create m x).2.ctr := by
  obtain ⟨hg, hsn, hs, hcap, hml, hctr⟩ := createAtom_grown m hwf
  obtain ⟨i1, i2, i3, i4, i5, i6, i7, i8, i9⟩ :=
    insertAtom_spec (growIfNeeded m) x hg (by omega)
  constructor
  · show (atomAt (insertAtom (growIfNeeded m) x).atoms
      (growIfNeeded m).sizeNext).markIdx < (insertAtom (growIfNeeded m) x).marks.length
    rw [i6, i4]
    exact hg.markIdxLt (growIfNeeded m).sizeNext (by omega)
  · rfl

/-! ## Destroy: no-op on dead slots, idempotence -/

theorem set_atomAt_self {atoms : List (Atom T)} {i : Nat} (h : i < atoms.length) :
    atoms.set i (atomAt atoms i) = atoms := by
  apply List.ext_getElem?
  intro n
  by_cases hn : n = i
  · rw [hn, List.getElem?_set_self h]
    unfold atomAt
    rw [List.getElem?_eq_getElem h]
    rfl
  · rw [List.getElem?_set_ne (fun he => hn he.symm)]

theorem atom_withAliveFalse_self {a : Atom T} (h : a.alive = false) :
    { a with alive := false } = a := by
  obtain ⟨d, mi, al⟩ := a
  have h' : al = false := h
  subst h'
  rfl

theorem manager_ext (m m' : Manager T) (h1 : m.size = m'.size)
    (h2 : m.sizeNext = m'.sizeNext) (h3 : m.atoms = m'.atoms)
    (h4 : m.marks = m'.marks) : m = m' := by
  obtain ⟨a, b, c, d⟩ := m
  obtain ⟨a', b', c', d'⟩ := m'
  have e1 : a = a' := h1
  have e2 : b = b' := h2
  have e3 : c = c' := h3
  have e4 : d = d' := h4
  subst e1; subst e2; subst e3; subst e4
  rfl

theorem destroy_dead_noop (m : Manager T) (i : HIdx)
    (hdead : (atomAt m.atoms (markAt m.marks i).atomIdx).alive = false) :
    destroy m i = m := by
  refine manager_ext _ _ rfl rfl ?_ rfl
  rw [destroy_eq, atom_withAliveFalse_self hdead]
  by_cases hlt : (markAt m.marks i).atomIdx < m.atoms.length
  · rw [set_atomAt_self hlt]
  · rw [List.set_eq_of_length_le (Nat.le_of_not_lt hlt)]

theorem destroy_destroy (m : Manager T) (i : HIdx) :
    destroy (destroy m i) i = destroy m i := by
  refine manager_ext _ _ rfl rfl ?_ rfl
  rw [destroy_eq (destroy m i) i]
  have hm : (destroy m i).marks = m.marks := rfl
  rw [hm]
  by_cases hlt : (markAt m.marks i).atomIdx < m.atoms.length
  · have hget : atomAt (destroy m i).atoms ((markAt m.marks i).atomIdx) =
        { atomAt m.atoms (markAt m.marks i).atomIdx with alive := false } := by
      rw [destroy_eq]
      exact atomAt_set_self hlt
    have hlt' : (markAt m.marks i).atomIdx < (destroy m i).atoms.length := by
      rw [destroy_eq, List.length_set]
      exact hlt
    rw [hget, atom_withAliveFalse_self rfl, ← hget]
    rw [set_atomAt_self hlt']
  · have hge : (destroy m i).atoms.length ≤ (markAt m.marks i).atomIdx := by
      rw [destroy_eq, List.length_set]
      exact Nat.le_of_not_lt hlt
    rw [List.set_eq_of_length_le hge]

/-! # The claims -/

/-- **C1.** For every reachable store state, `refresh()` establishes: every
slot in `[0, new size)` is alive; every slot in `[new size, old sizeNext)` has
had its payload destructed and its Index Record's generation incremented; and
afterwards `size = sizeNext =` the number of slots that were alive among
indices `[0, old sizeNext)` before the call (the partition boundary where the
two scanning pointers crossed). -/
theorem C1_refresh_partition (m : Manager T) (hR : Reach m) :
    (∀ s, s < (refresh m).size → (atomAt (refresh m).atoms s).alive = true) ∧
    (∀ s, (refresh m).size ≤ s → s < m.sizeNext →
      (atomAt (refresh m).atoms s).data = none ∧
      (markAt (refresh m).marks (atomAt (refresh m).atoms s).markIdx).ctr =
        (markAt m.marks (atomAt (refresh m).atoms s).markIdx).ctr + 1) ∧
    (refresh m).size = (refresh m).sizeNext ∧
    (refresh m).size = countAliveUpTo m.atoms m.sizeNext := by
  have hwf := wf_of_reach hR
  obtain ⟨r1, r2, r3, r4, r5, r6, r7, r8, r9, r10, r11⟩ := refresh_master m hwf
  exact ⟨r6, fun s hs hs' => ⟨(r7 s hs hs').2, r8 s hs hs'⟩, r1, r2⟩

/-- Witness for C1 at the concrete reachable state `mS1.1` (one entity created
in an empty store): after `refresh` the store has one alive slot at the front. -/
theorem C1_refresh_partition_witness :
    0 < (refresh mS1.1).size ∧ (atomAt (refresh mS1.1).atoms 0).alive = true := by
  have h := C1_refresh_partition mS1.1 (Reach.createStep initManager () Reach.init)
  exact ⟨by decide, h.1 0 (by decide)⟩

/-- **C2 counterexample.** The claim "in every reachable state, for EVERY slot
index s, `marks[atoms[s].markIdx].atomIdx = s`" is false: in the reachable
state `mC2c` (create, create, refresh, destroy the first entity, refresh — the
reclaiming refresh performs one compaction swap and fixes up only the alive
atom's mark), slot 1 holds a stale mark back-reference. -/
theorem C2_bijection_counterexample :
    Reach mC2c ∧
    (markAt mC2c.marks (atomAt mC2c.atoms 1).markIdx).atomIdx ≠ 1 := by
  constructor
  · exact Reach.refreshStep mC2b (Reach.destroyStep mC2a (mS1.2).markIdx
      (Reach.refreshStep mS2.1 (Reach.createStep mS1.1 ()
        (Reach.createStep initManager () Reach.init))))
  · decide

/-- **C2 (amended).** In every reachable state the Slot/Index-Record bijection
holds for every slot index `s < sizeNext`: `marks[atoms[s].markIdx].atomIdx = s`,
and symmetrically the round trip through that mark returns to the same mark
index.  (Slots at indices `≥ sizeNext` — reclaimed by a refresh swap — may
hold a stale mark back-reference until their slot is reused by `create`; the
compaction swap fixes up only the Index Record of the alive slot moved to the
low position.) -/
theorem C2_bijection_on_active (m : Manager T) (hR : Reach m) :
    ∀ s, s < m.sizeNext →
      (markAt m.marks (atomAt m.atoms s).markIdx).atomIdx = s ∧
      (atomAt m.atoms ((markAt m.marks (atomAt m.atoms s).markIdx).atomIdx)).markIdx
        = (atomAt m.atoms s).markIdx := by
  intro s hs
  have hb := (wf_of_reach hR).bij s hs
  exact ⟨hb, by rw [hb]⟩

/-- Witness for the amended C2: in the reachable state `mS1.1` the bijection
holds at the single live slot 0. -/
theorem C2_bijection_on_active_witness :
    (markAt mS1.1.marks (atomAt mS1.1.atoms 0).markIdx).atomIdx = 0 :=
  (C2_bijection_on_active mS1.1 (Reach.createStep initManager () Reach.init)
    0 (by decide)).1

/-- **C3 (code bug).** The spec says `update()` invokes the payload update
behaviour exactly on the active range `[0, size)`; the code
(`for(auto& e : atoms) e.get().update();`) iterates the whole atoms vector.
At the failing input `mC3.1` — an empty store after a single `create` (so
`size = 0`, `sizeNext = 1`) — `update` applies the behaviour to the pending
slot 0, which is outside `[0, size)`, and the result differs from the
spec-modelled active-range update. -/
theorem C3_update_outside_active_range :
    mC3.1.size = 0 ∧
    (atomAt mC3.1.atoms 0).data = some 5 ∧
    (atomAt (update succAlive mC3.1).atoms 0).data = some 6 ∧
    update succAlive mC3.1 ≠ updateSpecActiveRange succAlive mC3.1 := by
  refine ⟨rfl, by decide, by decide, by decide⟩

/-- **C4 counterexample.** "If h is invalid ... then h.destroy() is a no-op"
is false: after create, destroy, refresh, create (state `mC8b.1`), the stale
handle `mS1.2` is invalid, slot 0 is alive again (the second entity), yet
`destroy()` through the stale handle flips slot 0 to dead. -/
theorem C4_stale_destroy_counterexample :
    (mS1.2).isAlive mC8b.1 = false ∧
    (atomAt mC8b.1.atoms 0).alive = true ∧
    (atomAt mC4.atoms 0).alive = false := by
  refine ⟨by decide, by decide, by decide⟩

/-- **C4 (amended).** `destroy` performs no generation check, so an invalid
Handle's destroy marks dead whatever slot its Index Record currently
references.  What does hold: if the slot reached through the Handle's Index
Record is already dead, `h.destroy()` is a no-op on the entire state; and
destroying twice through the same Index Record (the same Handle, or two
Handles referencing the same entity) has exactly the effect of destroying
once, uniformly before any refresh. -/
theorem C4_destroy_dead_noop_and_idempotent (m : Manager T) (h : Handle) :
    ((atomAt m.atoms (markAt m.marks h.markIdx).atomIdx).alive = false →
      h.destroyIn m = m) ∧
    h.destroyIn (h.destroyIn m) = h.destroyIn m :=
  ⟨fun hdead => destroy_dead_noop m h.markIdx hdead,
   destroy_destroy m h.markIdx⟩

/-- Witness for the amended C4: in `mC8a` (create, destroy, refresh) slot 0 is
dead, and a second destroy through the original handle leaves the state
unchanged. -/
theorem C4_destroy_dead_noop_witness :
    (mS1.2).destroyIn mC8a = mC8a :=
  (C4_destroy_dead_noop_and_idempotent mC8a mS1.2).1 (by decide)

/-- **C5.** Generation counters: create, destroy and update change no control
counter; refresh increments by exactly 1 the counter of the Index Record of
each slot it reclaims in that call and leaves every other counter unchanged —
hence every counter is non-decreasing across every operation and only refresh
ever changes one. -/
theorem C5_generation_monotonicity (m : Manager T) (hR : Reach m) :
    (∀ x : T, ∀ j, (markAt (create m x).1.marks j).ctr = (markAt m.marks j).ctr) ∧
    (∀ i j, (markAt (destroy m i).marks j).ctr = (markAt m.marks j).ctr) ∧
    (∀ f : T → T × Bool, ∀ j,
      (markAt (update f m).marks j).ctr = (markAt m.marks j).ctr) ∧
    (∀ j, (∃ s, (refresh m).size ≤ s ∧ s < m.sizeNext ∧
        (atomAt (refresh m).atoms s).markIdx = j) →
      (markAt (refresh m).marks j).ctr = (markAt m.marks j).ctr + 1) ∧
    (∀ j, (∀ s, (refresh m).size ≤ s → s < m.sizeNext →
        (atomAt (refresh m).atoms s).markIdx ≠ j) →
      (markAt (refresh m).marks j).ctr = (markAt m.marks j).ctr) := by
  have hwf := wf_of_reach hR
  obtain ⟨r1, r2, r3, r4, r5, r6, r7, r8, r9, r10, r11⟩ := refresh_master m hwf
  exact ⟨fun x j => create_ctr_eq m x j, fun i j => rfl, fun f j => rfl, r9, r10⟩

/-- Witness for C5 at the reachable state `mS1.1`: a further create leaves the
counter of mark 0 unchanged. -/
theorem C5_generation_monotonicity_witness :
    (markAt (create mS1.1 ()).1.marks 0).ctr = (markAt mS1.1.marks 0).ctr :=
  (C5_generation_monotonicity mS1.1
    (Reach.createStep initManager () Reach.init)).1 () 0

/-- **C6.** Handle validity is one-way: for a handle whose mark index is in
range and whose counter snapshot does not exceed that mark's current counter
(both hold for every handle `create` returns, in the creating state and, by
monotonicity, ever after), once `isAlive` returns `false` it returns `false`
after every further sequence of create/destroy/update/refresh operations. -/
theorem C6_validity_one_way (m m' : Manager T) (h : Handle)
    (hs : Steps m m') (hlt : h.markIdx < m.marks.length)
    (hle : h.ctr ≤ (markAt m.marks h.markIdx).ctr)
    (hdead : h.isAlive m = false) :
    h.isAlive m' = false := by
  have hne : (markAt m.marks h.markIdx).ctr ≠ h.ctr := by
    intro hEq
    rw [isAlive_eq h m hlt, hEq, beq_self_eq_true] at hdead
    exact Bool.noConfusion hdead
  have hstrict : h.ctr < (markAt m.marks h.markIdx).ctr :=
    lt_of_le_of_ne hle (Ne.symm hne)
  have hinv : h.markIdx < m'.marks.length ∧
      h.ctr < (markAt m'.marks h.markIdx).ctr := by
    induction hs with
    | refl => exact ⟨hlt, hstrict⟩
    | tail _ hstep ih =>
      obtain ⟨ih1, ih2⟩ := ih
      obtain ⟨s1, s2⟩ := step_ctr_mono hstep h.markIdx
      exact ⟨lt_of_lt_of_le ih1 s2, lt_of_lt_of_le ih2 s1⟩
  rw [isAlive_eq h m' hinv.1]
  cases hbe : ((markAt m'.marks h.markIdx).ctr == h.ctr) with
  | false => rfl
  | true => exact absurd (eq_of_beq hbe) (ne_of_gt hinv.2)

/-- Witness for C6: the stale handle of the first entity is invalid in `mC8a`
and stays invalid across a further create step. -/
theorem C6_validity_one_way_witness :
    (mS1.2).isAlive mC8b.1 = false :=
  C6_validity_one_way mC8a mC8b.1 mS1.2
    (Relation.ReflTransGen.single (OpStep.createStep mC8a ()))
    (by decide) (by decide) (by decide)

/-- **C7.** Scenario: from the empty store, create three entities (handles
`mS1.2`, `mS2.2`, `mS3.2`), `refresh()`, destroy the third, `refresh()`:
the third handle is dead, the first two are alive, and the active count is 2. -/
theorem C7_three_entities_scenario :
    (mS3.2).isAlive mC7c = false ∧
    (mS1.2).isAlive mC7c = true ∧
    (mS2.2).isAlive mC7c = true ∧
    mC7c.size = 2 := by
  refine ⟨by decide, by decide, by decide, by decide⟩

/-- **C8.** Scenario: create an entity capturing a handle, destroy it,
refresh, then create a new entity that reuses the same physical slot (slot 0)
and the same Index Record: the old handle is invalid even though the slot is
occupied again. -/
theorem C8_stale_after_slot_reuse :
    (mS1.2).isAlive mC8b.1 = false ∧
    (atomAt mC8b.1.atoms 0).alive = true ∧
    (markAt mC8b.1.marks (mC8b.2).markIdx).atomIdx = 0 ∧
    (mC8b.2).markIdx = (mS1.2).markIdx := by
  refine ⟨by decide, by decide, by decide, by decide⟩

/-- **C9.** A Handle returned by `create` is immediately valid: the generation
snapshot taken at creation equals the Index Record's current generation and
`create` changes no generation counter, so `isAlive` is true before any
refresh. -/
theorem C9_created_handle_valid (m : Manager T) (x : T) (hR : Reach m) :
    ((create m x).2).isAlive (create m x).1 = true := by
  obtain ⟨hb, hc⟩ := create_handle_spec m x (wf_of_reach hR)
  rw [isAlive_eq _ _ hb, hc]
  exact beq_self_eq_true _

/-- Witness for C9: the handle of a create on the reachable state `mS1.1` is
immediately alive. -/
theorem C9_created_handle_valid_witness :
    ((create mS1.1 ()).2).isAlive (create mS1.1 ()).1 = true :=
  C9_created_handle_valid mS1.1 () (Reach.createStep initManager () Reach.init)

/-- **C10.** `refresh` is idempotent on every reachable state: a second
refresh with no intervening operation leaves the state — sizes, atoms and
marks — exactly as the first refresh left it. -/
theorem C10_refresh_idempotent (m : Manager T) (hR : Reach m) :
    refresh (refresh m) = refresh m := by
  have hwf := wf_of_reach hR
  obtain ⟨r1, r2, r3, r4, r5, r6, r7, r8, r9, r10, r11⟩ := refresh_master m hwf
  apply refresh_fixed
  · intro k hk
    exact r6 k (by rw [r1]; exact hk)
  · exact r1

/-- Witness for C10 at the reachable state `mS1.1`. -/
theorem C10_refresh_idempotent_witness :
    refresh (refresh mS1.1) = refresh mS1.1 :=
  C10_refresh_idempotent mS1.1 (Reach.createStep initManager () Reach.init)

end Handles
